import Mathlib

/-!
Verification of the SpectraGram benchmark worker against its specification.

Shallow embedding of the Python sources under `backend-evaluator/`:
  * `processor/job_runner.py`        (`_choose_ci`)
  * `jobs/benchmark/worker/runner.py` (`infer_one`, `post_onboard_evaluation`,
    `write_pred`, `_prediction_exists`)
  * `jobs/benchmark/worker/exec_infer.py` (`run_parallel`, `RateLimiter`)
  * `jobs/benchmark/evaluations/v1/pipeline.py` (`_edit_counts`, WER,
    `_bootstrap_ci_from_values`, `_orderstat_ci_quantile_normal`)
  * `jobs/benchmark/providers/{openai_whisper,deepgram}.py`
    (`_post_with_retries`)

Machine floats are modelled by `ℚ`; database rows by lists of structures;
the numpy random generator by an explicit list of resample index vectors
(its PCG64 bitstream is not reproducible in the embedding, so statements
quantify over the resampling outcome).
-/

namespace SpectraGram

/-! ### C8: CI row selection (`processor/job_runner.py`, `_choose_ci`) -/

/-- One `BootstrapResult` row as read back by the processor.
`iterations` is `Option Int` because the column is written as SQL NULL
(`None`) for order-statistic rows conceptually; `_choose_ci` maps
`None` to 0 via `int(b.iterations or 0)`. -/
structure BootRow where
  metric : String
  method : String
  iterations : Option Int
  ci_low : ℚ
  ci_high : ℚ
deriving DecidableEq

/-- Python `int(b.iterations or 0)`. -/
def pyIters : Option Int → Int
  | none => 0
  | some i => i

/-- `_METHOD_PRIORITY = ["bootstrap_percentile", "orderstat_normal_approx"]`;
`_METHOD_PRIORITY.index(m)` with the `except ValueError: idx = len(_METHOD_PRIORITY)+1` fallback. -/
def methodIdx (m : String) : Int :=
  if m = "bootstrap_percentile" then 0
  else if m = "orderstat_normal_approx" then 1
  else 3

/-- `score(b) = (method index, -iterations)` from `_choose_ci`. -/
def score (b : BootRow) : Int × Int :=
  (methodIdx b.method, -(pyIters b.iterations))

/-- Python tuple `<` on an `(Int, Int)` pair: lexicographic strict order. -/
def tupLt (a b : Int × Int) : Prop :=
  a.1 < b.1 ∨ (a.1 = b.1 ∧ a.2 < b.2)

instance (a b : Int × Int) : Decidable (tupLt a b) := by
  unfold tupLt; exact inferInstance

/-- Python `min(cands, key=score)`: scans left to right, keeps the first
element whose key is strictly smaller than the current best. -/
def pyMin (key : BootRow → Int × Int) (x : BootRow) (xs : List BootRow) : BootRow :=
  xs.foldl (fun acc y => if tupLt (key y) (key acc) then y else acc) x

/-- Embedding of `_choose_ci`, returning the chosen row itself. -/
def chooseCiRow (rows : List BootRow) (metric : String) : Option BootRow :=
  match rows.filter (fun b => b.metric = metric) with
  | [] => none
  | x :: xs => some (pyMin score x xs)

/-- Embedding of `_choose_ci`: `(ci_low, ci_high, method)` of the best row. -/
def chooseCi (rows : List BootRow) (metric : String) : Option (ℚ × ℚ × String) :=
  match chooseCiRow rows metric with
  | none => none
  | some best => some (best.ci_low, best.ci_high, best.method)

/-! ### C1: idempotency skip in `infer_one` (`worker/runner.py`) -/

/-- Task outcome strings returned by `infer_one`. -/
inductive Outcome
  | cancelled
  | skipped
  | error
  | ok
deriving DecidableEq

/-- `_prediction_exists(Session, job_run_id, utt_pk)`: membership of the
`(job_run_id, utt_pk)` pair in the prediction table (which carries a unique
index `ix_pred_unique` on exactly that pair). -/
def predictionExists (preds : List (Nat × Nat)) (jobRunId uttPk : Nat) : Bool :=
  preds.contains (jobRunId, uttPk)

/-- `write_pred`: inserting a `Prediction`; a duplicate raises
`IntegrityError` (unique index) which is caught and rolled back, so the
table is unchanged in that case. -/
def insertPred (preds : List (Nat × Nat)) (jobRunId uttPk : Nat) : List (Nat × Nat) :=
  if preds.contains (jobRunId, uttPk) then preds else preds ++ [(jobRunId, uttPk)]

/-- Environment of one `infer_one` call: the cancel flag as observed at each
of the four checks, the utterance primary key resolved by the writer, and
whether the provider call would raise. -/
structure InferEnv where
  cancelAtEntry : Bool
  cancelDuringIdWait : Bool
  cancelBeforeLimiter : Bool
  cancelAfterLimiter : Bool
  uttPk : Nat
  providerFails : Bool

/-- Embedding of `infer_one` (runner.py lines 214-303).  Returns the
outcome, whether `provider.transcribe` was invoked, and the prediction
table after the call (writer effects applied). -/
def inferOne (env : InferEnv) (jobRunId : Nat) (preds : List (Nat × Nat)) :
    Outcome × Bool × List (Nat × Nat) :=
  if env.cancelAtEntry then (.cancelled, false, preds)
  else if env.cancelDuringIdWait then (.cancelled, false, preds)
  else if predictionExists preds jobRunId env.uttPk then (.skipped, false, preds)
  else if env.cancelBeforeLimiter then (.cancelled, false, preds)
  else if env.cancelAfterLimiter then (.cancelled, false, preds)
  else if env.providerFails then (.error, true, preds)
  else (.ok, true, insertPred preds jobRunId env.uttPk)

/-! ### C3/C4: resume-or-create state machine of `post_onboard_evaluation`
(`worker/runner.py` lines 130-208 and 306-367) -/

/-- `JobRun.status` values (models.py lists `running|completed|failed`; the
runner additionally writes `aborted`). -/
inductive RunStatus
  | running
  | completed
  | failed
  | aborted
deriving DecidableEq

/-- The fields of a `JobRun` row the resume logic touches. -/
structure JobRunRow where
  id : Nat
  status : RunStatus
  endedAt : Option Nat
  errorText : String
deriving DecidableEq

/-- The per-benchmark slice of the database the decision reads:
whether the `Benchmark` row exists, and that benchmark's `JobRun` rows in
insertion order (primary keys are unique and autoincrementing). -/
structure BenchDB where
  benchmarkExists : Bool
  runs : List JobRunRow
deriving DecidableEq

/-- Accumulator step for `latestRun`. -/
def latestStep : Option JobRunRow → JobRunRow → Option JobRunRow
  | none, r => some r
  | some a, r => if a.id < r.id then some r else some a

/-- `ORDER BY job_run_id DESC ... first()`: the row with the largest id. -/
def latestRun (runs : List JobRunRow) : Option JobRunRow :=
  runs.foldl latestStep none

/-- What the block at runner.py lines 130-172 decides. -/
inductive Decision
  | alreadyCompleted (id : Nat)
  | resume (id : Nat)
  | fresh
deriving DecidableEq

/-- Embedding of the decision logic: completed → short-circuit;
`running`/`failed` → resume that run; anything else (no benchmark, no runs,
or latest `aborted`) → create fresh. -/
def resumeDecision (db : BenchDB) : Decision :=
  match (if db.benchmarkExists then latestRun db.runs else none) with
  | some last =>
    if last.status = .completed then .alreadyCompleted last.id
    else if last.status = .running ∨ last.status = .failed then .resume last.id
    else .fresh
  | none => .fresh

/-- Autoincrement: next primary key is one past the largest existing id. -/
def nextRunId (runs : List JobRunRow) : Nat :=
  (runs.foldl (fun m r => max m r.id) 0) + 1

/-- Reopening a resumed run: `status = "running"; ended_at = None; error_text = ""`. -/
def reopenRun (runs : List JobRunRow) (id : Nat) : List JobRunRow :=
  runs.map (fun r => if r.id = id then { r with status := .running, endedAt := none, errorText := "" } else r)

/-- Effect of the decision on the database, together with the job_run_id the
rest of `post_onboard_evaluation` operates on (`none` = short-circuit
return of the `already_completed` branch). -/
def applyDecision (db : BenchDB) : BenchDB × Option Nat :=
  match resumeDecision db with
  | .alreadyCompleted _ => (db, none)
  | .resume id => ({ db with runs := reopenRun db.runs id }, some id)
  | .fresh =>
    let id := nextRunId db.runs
    ({ benchmarkExists := true,
       runs := db.runs ++ [{ id := id, status := .running, endedAt := none, errorText := "" }] },
     some id)

/-- How the `try`-block of runner.py lines 306-367 ends. -/
inductive ExecEvent
  | normal
  | cancelSet
  | kbInterrupt
  | raisedExc
deriving DecidableEq

/-- What `post_onboard_evaluation` does after executing the task pool. -/
inductive FlowResult
  | returned (status : String)
  | raised
deriving DecidableEq

/-- Set a run's status (and end time) by id. -/
def setRunStatus (runs : List JobRunRow) (id : Nat) (st : RunStatus) : List JobRunRow :=
  runs.map (fun r => if r.id = id then { r with status := st, endedAt := some 1 } else r)

/-- First row with the given id, if any. -/
def statusOf (runs : List JobRunRow) (id : Nat) : Option RunStatus :=
  (runs.find? (fun r => r.id = id)).map (·.status)

/-- Embedding of the whole `post_onboard_evaluation` control flow around one
execution: decide, execute (outcome given by `ev`), finalize.  Returns the
final database, the call result, and whether the evaluation pipeline ran.
In the `raisedExc` case nothing catches the exception (only
`KeyboardInterrupt` has a handler), so no status update happens. -/
def runFlow (db : BenchDB) (ev : ExecEvent) : BenchDB × FlowResult × Bool :=
  match applyDecision db with
  | (db1, none) => (db1, .returned "already_completed", false)
  | (db1, some jrId) =>
    match ev with
    | .cancelSet => ({ db1 with runs := setRunStatus db1.runs jrId .aborted }, .returned "aborted", false)
    | .normal => ({ db1 with runs := setRunStatus db1.runs jrId .completed }, .returned "completed", true)
    | .kbInterrupt => ({ db1 with runs := setRunStatus db1.runs jrId .aborted }, .returned "aborted", false)
    | .raisedExc => (db1, .raised, false)

/-! ### C5: `_edit_counts` and corpus WER (`evaluations/v1/pipeline.py`) -/

/-- One DP cell: `(cost, backpointer)` with backpointer 0=diag, 1=up(del),
2=left(ins). -/
abbrev Cell := Nat × Nat

/-- Row `i = 0` of the cost/back matrices: `cost[0,j] = j`, `back[0,j] = 2`
for `j ≥ 1`, and cell `(0,0)` untouched at `(0,0)`. -/
def initRow (m : Nat) : List Cell :=
  (0, 0) :: (List.range m).map (fun j => (j + 1, 2))

/-- Interior cell of `_edit_counts`: match keeps the diagonal cost with
backpointer 0; otherwise `cmin = sub; b = 0; if dele < cmin: ...; if ins <
cmin: ...` — ties prefer diagonal over up over left. -/
def cellStep (rw hw : String) (diag up left : Cell) : Cell :=
  if rw = hw then (diag.1, 0)
  else
    let sub := diag.1 + 1
    let dele := up.1 + 1
    let ins := left.1 + 1
    let c1 := if dele < sub then (dele, 1) else (sub, 0)
    if ins < c1.1 then (ins, 2) else c1

/-- Fill the interior of one row: walks the hypothesis words with the window
`diag = prev[j-1], up = prev[j]` over the previous row and the running
`left` cell. -/
def fillRow (rw : String) : List String → List Cell → Cell → List Cell
  | hw :: hws, diag :: up :: rest, left =>
    let c := cellStep rw hw diag up left
    c :: fillRow rw hws (up :: rest) c
  | _, _, _ => []

/-- Row `i ≥ 1`: border cell `cost[i,0] = i, back[i,0] = 1`, then the filled
interior. -/
def nextRow (rw : String) (hypW : List String) (i : Nat) (prev : List Cell) : List Cell :=
  (i, 1) :: fillRow rw hypW prev (i, 1)

/-- The full `(n+1) × (m+1)` cost/back matrix of `_edit_counts`. -/
def dpRows (refW hypW : List String) : List (List Cell) :=
  (refW.foldl
    (fun (acc : Nat × List Cell × List (List Cell)) rw =>
      let i := acc.1 + 1
      let row := nextRow rw hypW i acc.2.1
      (i, row, acc.2.2 ++ [row]))
    (0, initRow hypW.length, [initRow hypW.length])).2.2

/-- `back[i, j]` lookup. -/
def backAt (rows : List (List Cell)) (i j : Nat) : Nat :=
  ((rows.getD i []).getD j (0, 0)).2

/-- The backtrack loop of `_edit_counts` (`while i > 0 or j > 0`), counting
`(S, D, I)`.  `fuel` bounds the iteration count; each loop iteration
decreases `i + j` by at least one on the matrices `dpRows` produces, so
`fuel = i + j` makes the embedding exact. -/
def btGo (refW hypW : List String) (rows : List (List Cell)) :
    Nat → Nat → Nat → Nat × Nat × Nat
  | 0, _, _ => (0, 0, 0)
  | _ + 1, 0, 0 => (0, 0, 0)
  | fuel + 1, i, j =>
    let b := backAt rows i j
    if b = 0 then
      let s := if 0 < i && 0 < j && decide (refW.getD (i - 1) "" ≠ hypW.getD (j - 1) "") then 1 else 0
      let r := btGo refW hypW rows fuel (i - 1) (j - 1)
      (r.1 + s, r.2.1, r.2.2)
    else if b = 1 then
      let r := btGo refW hypW rows fuel (i - 1) j
      (r.1, r.2.1 + 1, r.2.2)
    else
      let r := btGo refW hypW rows fuel i (j - 1)
      (r.1, r.2.1, r.2.2 + 1)

/-- `_edit_counts(ref_words, hyp_words) = (S, D, I)`. -/
def editCounts (refW hypW : List String) : Nat × Nat × Nat :=
  btGo refW hypW (dpRows refW hypW) (refW.length + hypW.length) refW.length hypW.length

/-- The bucket accumulation `S += s1; D += d1; I += i1; N += len(rw)` of
`EvaluationV1.run`, over already-tokenized (reference, hypothesis) pairs. -/
def corpusCounts (pairs : List (List String × List String)) : Nat × Nat × Nat × Nat :=
  pairs.foldl
    (fun acc p =>
      let c := editCounts p.1 p.2
      (acc.1 + c.1, acc.2.1 + c.2.1, acc.2.2.1 + c.2.2, acc.2.2.2 + p.1.length))
    (0, 0, 0, 0)

/-- `wer_point = (S + D + I) / max(1, N)`. -/
def corpusWer (pairs : List (List String × List String)) : ℚ :=
  let c := corpusCounts pairs
  ((c.1 + c.2.1 + c.2.2.1 : ℕ) : ℚ) / ((max 1 c.2.2.2 : ℕ) : ℚ)

/-! ### C9: RTF in `write_pred` (`worker/runner.py` lines 274-302) and the
RTF aggregate input (`pipeline.py` lines 275-281) -/

/-- The `LatencySample` fields `write_pred` populates.  The `rtf` column is
nullable in the schema, hence `Option ℚ` here; `rtfMissingDuration` models
`meta_json = {"rtf_missing_duration": True}`. -/
structure LatencySampleM where
  api_time_ms : ℚ
  total_time_ms : ℚ
  rtf : Option ℚ
  rtfMissingDuration : Bool
deriving DecidableEq

/-- Embedding of the latency part of `write_pred`: Python
`if task.utt.duration_s and task.utt.duration_s > 0` is true exactly for a
present, strictly positive duration. -/
def writePredLatency (elapsed_s : ℚ) (duration_s : Option ℚ) : LatencySampleM :=
  match duration_s with
  | some d =>
    if 0 < d then
      { api_time_ms := elapsed_s * 1000, total_time_ms := elapsed_s * 1000,
        rtf := some (elapsed_s / d), rtfMissingDuration := false }
    else
      { api_time_ms := elapsed_s * 1000, total_time_ms := elapsed_s * 1000,
        rtf := some 0, rtfMissingDuration := true }
  | none =>
    { api_time_ms := elapsed_s * 1000, total_time_ms := elapsed_s * 1000,
      rtf := some 0, rtfMissingDuration := true }

/-- A bucket row as the evaluation sees it: `(total_time_ms, duration_s)`.
The pipeline stores `NaN` for a missing or non-positive duration and then
masks with `isfinite(dur) & (dur > 0)`; the embedding keeps the duration as
`Option ℚ` and the mask as `some d` with `0 < d`. -/
def rtfAggregateInput (rows : List (ℚ × Option ℚ)) : List ℚ :=
  rows.filterMap (fun r =>
    match r.2 with
    | some d => if 0 < d then some ((r.1 / 1000) / d) else none
    | none => none)

/-- The pipeline's mask for one row. -/
def durKnownPos (r : ℚ × Option ℚ) : Bool :=
  match r.2 with
  | some d => decide (0 < d)
  | none => false

/-! ### C7: provider retry loop (`providers/openai_whisper.py` lines 31-87,
`providers/deepgram.py` lines 14-43) -/

/-- What one `requests.post` attempt does: returns a response (status code
plus `Retry-After` header state: absent, present-unparsable, or a parsed
value) or raises a timeout / connection error. -/
inductive AttemptOutcome
  | response (status : Nat) (retryAfter : Option (Option ℚ))
  | timeoutErr
  | connectionErr
deriving DecidableEq

/-- `RETRY_STATUS = {429, 500, 502, 503, 504}` (identical in both providers). -/
def isRetryStatus (st : Nat) : Bool :=
  st = 429 || st = 500 || st = 502 || st = 503 || st = 504

/-- How `_post_with_retries` ends: a 2xx/3xx response returned at some
attempt, an `HTTPError` raised at some attempt, or a timeout/connection
error raised at some attempt. -/
inductive RetryResult
  | success (attempt : Nat)
  | httpError (status : Nat) (attempt : Nat)
  | transportError (attempt : Nat)
deriving DecidableEq

/-- `base_backoff * (2 ** (attempt - 1))` with `base_backoff = 0.5`. -/
def expBackoff (attempt : Nat) : ℚ :=
  (1 / 2) * 2 ^ (attempt - 1)

/-- The wait the OpenAI provider computes in the retry-status branch:
a parsed `Retry-After` wins, otherwise exponential backoff plus jitter.
`jitter attempt` models `random.uniform(0, 0.25)`. -/
def openaiStatusWait (jitter : Nat → ℚ) (attempt : Nat) (ra : Option (Option ℚ)) : ℚ :=
  match ra with
  | some (some v) => v
  | some none => expBackoff attempt + jitter attempt
  | none => expBackoff attempt + jitter attempt

/-- The Deepgram variant: the jitter is added outside (in the `sleep`), and
an unparsable header falls back to plain backoff; here the sleep argument
(before the 10-second cap) is modelled. -/
def deepgramStatusWait (jitter : Nat → ℚ) (attempt : Nat) (ra : Option (Option ℚ)) : ℚ :=
  match ra with
  | some (some v) => v + jitter attempt
  | some none => expBackoff attempt + jitter attempt
  | none => expBackoff attempt + jitter attempt

/-- Shared control flow of `_post_with_retries` in both providers, with the
provider-specific wait computation factored out.  `env k` is the outcome of
attempt `k`; `fuel` counts the attempts still allowed including the current
one, so the loop `for attempt in range(1, max_retries + 1)` is
`retryGo env ... 1 max_retries`.  Returns the result and the list of sleeps
performed (each `min(wait, 10.0)`). -/
def retryGo (env : Nat → AttemptOutcome) (statusWait : Nat → Option (Option ℚ) → ℚ)
    (excWait : Nat → ℚ) : Nat → Nat → RetryResult × List ℚ
  | _, 0 => (.transportError 0, [])
  | attempt, fuel + 1 =>
    match env attempt with
    | .response st ra =>
      if isRetryStatus st then
        if fuel > 0 then
          let w := min (statusWait attempt ra) 10
          let r := retryGo env statusWait excWait (attempt + 1) fuel
          (r.1, w :: r.2)
        else (.httpError st attempt, [])
      else if st ≥ 400 then (.httpError st attempt, [])
      else (.success attempt, [])
    | .timeoutErr =>
      if fuel > 0 then
        let w := min (excWait attempt) 10
        let r := retryGo env statusWait excWait (attempt + 1) fuel
        (r.1, w :: r.2)
      else (.transportError attempt, [])
    | .connectionErr =>
      if fuel > 0 then
        let w := min (excWait attempt) 10
        let r := retryGo env statusWait excWait (attempt + 1) fuel
        (r.1, w :: r.2)
      else (.transportError attempt, [])

/-- `OpenAIWhisperProvider._post_with_retries` with `max_retries = 6`. -/
def openaiPostWithRetries (env : Nat → AttemptOutcome) (jitter : Nat → ℚ) :
    RetryResult × List ℚ :=
  retryGo env (openaiStatusWait jitter) (fun a => expBackoff a + jitter a) 1 6

/-- `DeepgramProvider._post_with_retries` with `max_retries = 6`. -/
def deepgramPostWithRetries (env : Nat → AttemptOutcome) (jitter : Nat → ℚ) :
    RetryResult × List ℚ :=
  retryGo env (deepgramStatusWait jitter) (fun a => expBackoff a + jitter a) 1 6

/-- The attempt index at which a retry loop run ended. -/
def attemptOf : RetryResult → ℕ
  | .success a => a
  | .httpError _ a => a
  | .transportError a => a

/-- Transient attempt outcomes: retry statuses and transport errors. -/
def isTransient : AttemptOutcome → Bool
  | .response st _ => isRetryStatus st
  | .timeoutErr => true
  | .connectionErr => true

/-- The error `_post_with_retries` surfaces when the final attempt is still
transient: the HTTP error of the last response, or the last transport
exception. -/
def lastError (attempt : Nat) : AttemptOutcome → RetryResult
  | .response st _ => .httpError st attempt
  | .timeoutErr => .transportError attempt
  | .connectionErr => .transportError attempt

/-! ### C6: percentile bootstrap (`pipeline.py` `_bootstrap_ci_from_values`,
`core/bootstrap.py` `bootstrap_ci`) -/

/-- Linear interpolation at fractional index `h` over a sorted sample: the
core of numpy's default `quantile` method (upper neighbour index clipped
into range). -/
def interpSorted (s : List ℚ) (h : ℚ) : ℚ :=
  let i : ℤ := ⌊h⌋
  let lo := s.getD i.toNat 0
  let hi := s.getD (min (i.toNat + 1) (s.length - 1)) 0
  lo + (h - (i : ℚ)) * (hi - lo)

/-- `np.quantile(a, q)` with the default linear interpolation: sort, take
`h = q*(n-1)`, interpolate between the neighbouring order statistics.
Empty input is out of numpy's domain; the embedding returns 0 there (the
code never reaches it: `iterations = 1000`). -/
def quantileLinear (xs : List ℚ) (q : ℚ) : ℚ :=
  let s := xs.mergeSort (· ≤ ·)
  if s.length = 0 then 0
  else interpSorted s (q * ((s.length : ℚ) - 1))

/-- `stats[b] = stat_fn(vals[idx])` for each resample index vector.  The
numpy generator `default_rng(seed).integers(0, n, size=n)` is abstracted by
the explicit list `resamples`; each well-formed vector has length `n` with
entries `< n`. -/
def statValues (vals : List ℚ) (statFn : List ℚ → ℚ) (resamples : List (List ℕ)) : List ℚ :=
  resamples.map (fun idx => statFn (idx.map (fun k => vals.getD k 0)))

/-- Embedding of `_bootstrap_ci_from_values`: raise on empty input, else the
percentile interval `(quantile(stats, alpha/2), quantile(stats, 1-alpha/2))`. -/
def bootstrapCiFromValues (vals : List ℚ) (statFn : List ℚ → ℚ)
    (resamples : List (List ℕ)) (conf : ℚ) : Except String (ℚ × ℚ) :=
  if vals.length = 0 then .error "bootstrap on empty array"
  else
    let stats := statValues vals statFn resamples
    let alpha := 1 - conf
    .ok (quantileLinear stats (alpha / 2), quantileLinear stats (1 - alpha / 2))

/-- `np.mean`. -/
def listMean (xs : List ℚ) : ℚ := xs.sum / (xs.length : ℚ)

/-- Embedding of `core/bootstrap.py::bootstrap_ci`: same percentile scheme
specialized to the mean (that file computes `alpha = (1-conf)/2` up front). -/
def bootstrapCi (values : List ℚ) (resamples : List (List ℕ)) (conf : ℚ) : ℚ × ℚ :=
  let boots := statValues values listMean resamples
  let alpha := (1 - conf) / 2
  (quantileLinear boots alpha, quantileLinear boots (1 - alpha))

/-! ### C10: `_orderstat_ci_quantile_normal` (`pipeline.py` lines 117-149) -/

/-- The `_z(p)` bisection: 60 halvings of `[-8, 8]` against the normal CDF
`φ(x) = 0.5*(1+erf(x/sqrt(2)))`, which is kept as an explicit function
argument (the embedding does not define `erf`; every property proved below
holds for any `φ`, with the hypothesis `φ 0 < p` supplied by the actual CDF
since `erf 0 = 0` gives `φ 0 = 1/2`). -/
def bisectStep (φ : ℚ → ℚ) (p : ℚ) (lh : ℚ × ℚ) : ℚ × ℚ :=
  let mid := (lh.1 + lh.2) / 2
  if φ mid < p then (mid, lh.2) else (lh.1, mid)

def zBisect (φ : ℚ → ℚ) (p : ℚ) : ℚ :=
  let r := (List.range 60).foldl (fun lh _ => bisectStep φ p lh) (-8, 8)
  (r.1 + r.2) / 2

/-- `k_lo = int(max(1, np.floor(mu - z*sigma)))` with `mu = n*q`. -/
def kLoRank (n : ℕ) (q z σ : ℚ) : ℤ := max 1 ⌊(n : ℚ) * q - z * σ⌋

/-- `k_hi = int(min(n, np.ceil(mu + z*sigma)))`. -/
def kHiRank (n : ℕ) (q z σ : ℚ) : ℤ := min (n : ℤ) ⌈(n : ℚ) * q + z * σ⌉

/-- Embedding of `_orderstat_ci_quantile_normal` on an already-sorted
sample.  `z` is the bisection output and `σ` stands for the code's
`sqrt(n*q*(1-q)) + 1e-9` (a nonnegative quantity; its exact value is
irrelevant to the rank-clamping behaviour, and square roots are not exactly
representable in `ℚ`, so it is a parameter constrained by `0 ≤ σ` in the
theorems).  Empty input raises. -/
def orderstatCI (valsSorted : List ℚ) (q z σ : ℚ) : Option (ℚ × ℚ) :=
  let n := valsSorted.length
  if n = 0 then none
  else
    some (valsSorted.getD ((kLoRank n q z σ).toNat - 1) 0,
          valsSorted.getD ((kHiRank n q z σ).toNat - 1) 0)

/-! ### C2: `run_parallel` with cooperative cancellation
(`worker/exec_infer.py` lines 26-53 and the runner's finalization).

The executor is modelled as a labelled transition system.  All futures are
submitted up front; worker threads of the `ThreadPoolExecutor` may start
any pending (not yet cancelled) future at any time — the cancel event does
not gate future startup, only the collection loop's `fut.cancel()` calls do
(`observe`).  `infer_one` invokes the provider only after a preflight check
that the cancel flag is unset (`callProvider` requires `cancelFlag =
false`).  `finalize` is the code after the pool returns: flag set → status
`aborted`, evaluation skipped; otherwise evaluation runs and the status
becomes `completed`. -/

/-- Lifecycle of one submitted future/task. -/
inductive TaskStatus
  | notStarted
  | futCancelled
  | running
  | providerCalled
  | finished
deriving DecidableEq

/-- Executor + runner state. -/
structure ExecState where
  tasks : List TaskStatus
  cancelFlag : Bool
  observed : Bool
  providerCalls : ℕ
  finalStatus : Option RunStatus
  evalRan : Bool
deriving DecidableEq

/-- Events of the transition system. -/
inductive ExecEv
  | setCancel
  | start (i : ℕ)
  | callProvider (i : ℕ)
  | finishTask (i : ℕ)
  | observe
  | finalize
deriving DecidableEq

/-- One transition; `none` when the event is not enabled. -/
def execStep (s : ExecState) (e : ExecEv) : Option ExecState :=
  match e with
  | .setCancel =>
    if s.finalStatus = none then some { s with cancelFlag := true } else none
  | .start i =>
    if s.finalStatus = none ∧ s.tasks[i]? = some .notStarted then
      some { s with tasks := s.tasks.set i .running }
    else none
  | .callProvider i =>
    if s.finalStatus = none ∧ s.tasks[i]? = some .running ∧ s.cancelFlag = false then
      some { s with tasks := s.tasks.set i .providerCalled,
                    providerCalls := s.providerCalls + 1 }
    else none
  | .finishTask i =>
    if s.finalStatus = none ∧
        (s.tasks[i]? = some .running ∨ s.tasks[i]? = some .providerCalled) then
      some { s with tasks := s.tasks.set i .finished }
    else none
  | .observe =>
    if s.finalStatus = none ∧ s.cancelFlag = true then
      some { s with
        tasks := s.tasks.map (fun t => if t = .notStarted then .futCancelled else t),
        observed := true }
    else none
  | .finalize =>
    if s.finalStatus = none ∧ (s.observed = true ∨ ∀ t ∈ s.tasks, t = TaskStatus.finished) then
      if s.cancelFlag then some { s with finalStatus := some .aborted }
      else some { s with finalStatus := some .completed, evalRan := true }
    else none

/-- Run a sequence of events. -/
def execRun : ExecState → List ExecEv → Option ExecState
  | s, [] => some s
  | s, e :: es =>
    match execStep s e with
    | none => none
    | some s1 => execRun s1 es

/-- Initial state for `n` submitted tasks. -/
def initExec (n : ℕ) : ExecState :=
  { tasks := List.replicate n .notStarted, cancelFlag := false, observed := false,
    providerCalls := 0, finalStatus := none, evalRan := false }

/-! ## Theorems -/

/-! ### Helper lemmas for C8 -/

theorem tupLt_irrefl (a : ℤ × ℤ) : ¬ tupLt a a := by
  unfold tupLt; omega

theorem tupLt_trans {a b c : ℤ × ℤ} (h1 : tupLt a b) (h2 : tupLt b c) : tupLt a c := by
  unfold tupLt at *; omega

theorem not_tupLt_trans {a b c : ℤ × ℤ} (h1 : ¬ tupLt b a) (h2 : ¬ tupLt c b) : ¬ tupLt c a := by
  unfold tupLt at *; omega

theorem pyMin_spec (key : BootRow → ℤ × ℤ) (x : BootRow) (xs : List BootRow) :
    pyMin key x xs ∈ x :: xs ∧ ∀ c ∈ x :: xs, ¬ tupLt (key c) (key (pyMin key x xs)) := by
  induction xs generalizing x with
  | nil =>
    constructor
    · simp [pyMin]
    · intro c hc
      simp [pyMin] at hc ⊢
      subst hc
      exact tupLt_irrefl _
  | cons y ys ih =>
    have hstep : pyMin key x (y :: ys) =
        pyMin key (if tupLt (key y) (key x) then y else x) ys := rfl
    by_cases h : tupLt (key y) (key x)
    · rw [hstep, if_pos h]
      obtain ⟨hmem, hmin⟩ := ih y
      constructor
      · rcases List.mem_cons.mp hmem with h1 | h1
        · rw [h1]; simp
        · simp [h1]
      · intro c hc
        rcases List.mem_cons.mp hc with rfl | hc1
        · -- c = x: from ¬ (key y < key r) and key y < key x
          intro hcon
          exact hmin y (by simp) (tupLt_trans h hcon)
        · exact hmin c hc1
    · rw [hstep, if_neg h]
      obtain ⟨hmem, hmin⟩ := ih x
      constructor
      · rcases List.mem_cons.mp hmem with h1 | h1
        · rw [h1]; simp
        · simp [h1]
      · intro c hc
        rcases List.mem_cons.mp hc with rfl | hc1
        · exact hmin c (by simp)
        · rcases List.mem_cons.mp hc1 with rfl | hc2
          · exact not_tupLt_trans (hmin x (by simp)) h
          · exact hmin c (by simp [hc2])

theorem methodIdx_eq_zero_iff (m : String) :
    methodIdx m = 0 ↔ m = "bootstrap_percentile" := by
  unfold methodIdx
  by_cases h1 : m = "bootstrap_percentile"
  · simp [h1]
  · by_cases h2 : m = "orderstat_normal_approx" <;> simp [h1, h2]

theorem chooseCiRow_spec (rows : List BootRow) (metric : String) (best : BootRow)
    (h : chooseCiRow rows metric = some best) :
    best ∈ rows ∧ best.metric = metric ∧
      ∀ c ∈ rows, c.metric = metric → ¬ tupLt (score c) (score best) := by
  unfold chooseCiRow at h
  rcases hfc : rows.filter (fun b => b.metric = metric) with _ | ⟨x, xs⟩ <;>
    rw [hfc] at h
  · cases h
  · simp only [Option.some.injEq] at h
    obtain ⟨hmem, hmin⟩ := pyMin_spec score x xs
    rw [h] at hmem hmin
    have hbestc : best ∈ rows.filter (fun b => b.metric = metric) := by
      rw [hfc]; exact hmem
    have hbest := List.mem_filter.mp hbestc
    refine ⟨hbest.1, by simpa using hbest.2, ?_⟩
    intro c hcmem hcmetric
    have hcf : c ∈ rows.filter (fun b => b.metric = metric) :=
      List.mem_filter.mpr ⟨hcmem, by simpa using hcmetric⟩
    exact hmin c (hfc ▸ hcf)

/-- Claim C8: CI row selection is deterministic — among the candidate rows
for a metric a `bootstrap_percentile` row is always chosen over an
`orderstat_normal_approx` row regardless of iteration counts, rows of the
chosen method with higher iteration counts win, and in particular a
bootstrap-percentile row with 1000 iterations beats an order-statistic row
for the same metric. -/
theorem claim_C8 :
    (∀ rows metric best, chooseCiRow rows metric = some best →
      best ∈ rows ∧ best.metric = metric
      ∧ ((∃ c ∈ rows, c.metric = metric ∧ c.method = "bootstrap_percentile") →
          best.method = "bootstrap_percentile")
      ∧ (∀ c ∈ rows, c.metric = metric → c.method = best.method →
          pyIters c.iterations ≤ pyIters best.iterations))
    ∧ chooseCi
        [{ metric := "wer", method := "bootstrap_percentile", iterations := some 1000,
           ci_low := 1, ci_high := 2 },
         { metric := "wer", method := "orderstat_normal_approx", iterations := none,
           ci_low := 0, ci_high := 3 }] "wer"
      = some (1, 2, "bootstrap_percentile") := by
  constructor
  · intro rows metric best h
    obtain ⟨hmem, hmetric, hmin⟩ := chooseCiRow_spec rows metric best h
    refine ⟨hmem, hmetric, ?_, ?_⟩
    · rintro ⟨c, hcmem, hcmetric, hcmethod⟩
      by_contra hne
      have hidx : methodIdx best.method ≠ 0 := fun h0 => hne ((methodIdx_eq_zero_iff _).mp h0)
      have hpos : 0 < methodIdx best.method := by
        unfold methodIdx at hidx ⊢
        by_cases h1 : best.method = "bootstrap_percentile"
        · simp [h1] at hidx
        · by_cases h2 : best.method = "orderstat_normal_approx" <;> simp [h1, h2]
      refine hmin c hcmem hcmetric ?_
      left
      show methodIdx c.method < methodIdx best.method
      rw [hcmethod]
      simpa [methodIdx] using hpos
    · intro c hcmem hcmetric hcmethod
      have hle := hmin c hcmem hcmetric
      simp only [tupLt, score, hcmethod, not_or, not_and, not_lt] at hle
      have h2 := hle.2 trivial
      omega
  · decide

/-- Witness for claim C8 at a concrete row list. -/
theorem claim_C8_witness :
    ({ metric := "wer", method := "bootstrap_percentile", iterations := some 1000,
       ci_low := 1, ci_high := 2 } : BootRow).method = "bootstrap_percentile" := by
  have h := claim_C8.1
    [{ metric := "wer", method := "bootstrap_percentile", iterations := some 1000,
       ci_low := 1, ci_high := 2 },
     { metric := "wer", method := "orderstat_normal_approx", iterations := none,
       ci_low := 0, ci_high := 3 }] "wer"
    { metric := "wer", method := "bootstrap_percentile", iterations := some 1000,
      ci_low := 1, ci_high := 2 } (by decide)
  exact h.2.2.1
    ⟨{ metric := "wer", method := "bootstrap_percentile", iterations := some 1000,
       ci_low := 1, ci_high := 2 }, List.mem_cons_self _ _, rfl, rfl⟩

/-! ### C1 -/

/-- Claim C1: a task whose `(job_run_id, utt_pk)` pair already has a
`Prediction` row when it executes never invokes the provider and never
changes the prediction table, and (absent a cancellation preemption, which
returns `cancelled` before the lookup) its outcome is `skipped`. -/
theorem claim_C1 (env : InferEnv) (jobRunId : ℕ) (preds : List (ℕ × ℕ))
    (hex : predictionExists preds jobRunId env.uttPk = true) :
    (inferOne env jobRunId preds).2.1 = false
    ∧ (inferOne env jobRunId preds).2.2 = preds
    ∧ (env.cancelAtEntry = false → env.cancelDuringIdWait = false →
        (inferOne env jobRunId preds).1 = .skipped) := by
  unfold inferOne
  cases hCE : env.cancelAtEntry <;> cases hCW : env.cancelDuringIdWait <;>
    simp [hex]

/-- Witness for claim C1: a resumed task for an already-predicted utterance
is skipped with no provider call. -/
theorem claim_C1_witness :
    (inferOne ⟨false, false, false, false, 7, false⟩ 3 [(3, 7)]).1 = Outcome.skipped
    ∧ (inferOne ⟨false, false, false, false, 7, false⟩ 3 [(3, 7)]).2.1 = false
    ∧ (inferOne ⟨false, false, false, false, 7, false⟩ 3 [(3, 7)]).2.2 = [(3, 7)] := by
  have h := claim_C1 ⟨false, false, false, false, 7, false⟩ 3 [(3, 7)] (by decide)
  exact ⟨h.2.2 rfl rfl, h.1, h.2.1⟩

/-! ### Helper lemmas for C3/C4 -/

theorem latestFold_mem (l : List JobRunRow) (acc : Option JobRunRow) (a : JobRunRow)
    (h : l.foldl latestStep acc = some a) : acc = some a ∨ a ∈ l := by
  induction l generalizing acc with
  | nil => exact Or.inl h
  | cons r l ih =>
    rcases ih (latestStep acc r) h with h1 | h1
    · match acc, h1 with
      | none, h1 => exact Or.inr (by simp [latestStep] at h1; simp [h1])
      | some b, h1 =>
        simp only [latestStep] at h1
        split at h1
        · exact Or.inr (by simp at h1; simp [h1])
        · exact Or.inl h1
    · exact Or.inr (List.mem_cons_of_mem r h1)

theorem latestRun_mem {runs : List JobRunRow} {a : JobRunRow}
    (h : latestRun runs = some a) : a ∈ runs := by
  rcases latestFold_mem runs none a h with h1 | h1
  · cases h1
  · exact h1

theorem latestRun_append_gt (runs : List JobRunRow) (r : JobRunRow)
    (h : ∀ x ∈ runs, x.id < r.id) : latestRun (runs ++ [r]) = some r := by
  unfold latestRun
  rw [List.foldl_append]
  rcases hl : runs.foldl latestStep none with _ | a
  · rfl
  · have ha : a ∈ runs := latestRun_mem hl
    simp [latestStep, h a ha]

theorem latestFold_map_id (runs : List JobRunRow) (f : JobRunRow → JobRunRow)
    (hf : ∀ r, (f r).id = r.id) (acc : Option JobRunRow) :
    (runs.map f).foldl latestStep (acc.map f) = (runs.foldl latestStep acc).map f := by
  induction runs generalizing acc with
  | nil => rfl
  | cons r l ih =>
    have hstep : latestStep (acc.map f) (f r) = (latestStep acc r).map f := by
      match acc with
      | none => rfl
      | some a => by_cases hab : a.id < r.id <;> simp [latestStep, hf, hab]
    simpa [hstep] using ih (latestStep acc r)

theorem latestRun_map_id (runs : List JobRunRow) (f : JobRunRow → JobRunRow)
    (hf : ∀ r, (f r).id = r.id) :
    latestRun (runs.map f) = (latestRun runs).map f := by
  have := latestFold_map_id runs f hf none
  simpa [latestRun] using this

theorem le_foldl_maxId (l : List JobRunRow) (acc : ℕ) :
    acc ≤ l.foldl (fun m r => max m r.id) acc := by
  induction l generalizing acc with
  | nil => exact Nat.le_refl _
  | cons r l ih => exact le_trans (Nat.le_max_left _ _) (ih (max acc r.id))

theorem lt_nextRunId (runs : List JobRunRow) : ∀ x ∈ runs, x.id < nextRunId runs := by
  unfold nextRunId
  suffices h : ∀ acc, ∀ x ∈ runs, x.id ≤ runs.foldl (fun m r => max m r.id) acc by
    intro x hx
    exact Nat.lt_succ_of_le (h 0 x hx)
  induction runs with
  | nil => intro _ x hx; cases hx
  | cons r l ih =>
    intro acc x hx
    rcases List.mem_cons.mp hx with rfl | hx1
    · exact le_trans (Nat.le_max_right acc x.id) (le_foldl_maxId l _)
    · exact ih (max acc r.id) x hx1

theorem statusOf_reopen (runs : List JobRunRow) (id : ℕ)
    (h : ∃ r ∈ runs, r.id = id) : statusOf (reopenRun runs id) id = some .running := by
  induction runs with
  | nil => simp at h
  | cons r l ih =>
    by_cases hr : r.id = id
    · simp [statusOf, reopenRun, List.find?, hr]
    · have h2 : ∃ x ∈ l, x.id = id := by
        rcases h with ⟨x, hx, hxid⟩
        rcases List.mem_cons.mp hx with rfl | hx1
        · exact absurd hxid hr
        · exact ⟨x, hx1, hxid⟩
      simpa [statusOf, reopenRun, List.find?, hr] using ih h2

theorem statusOf_append_new (runs : List JobRunRow) (r : JobRunRow)
    (h : ∀ x ∈ runs, x.id ≠ r.id) : statusOf (runs ++ [r]) r.id = some r.status := by
  induction runs with
  | nil => simp [statusOf, List.find?]
  | cons x l ih =>
    have hx : x.id ≠ r.id := h x (by simp)
    simpa [statusOf, List.find?, hx] using ih (fun y hy => h y (by simp [hy]))

/-- The reopen map preserves ids. -/
theorem reopen_id_preserving (id : ℕ) (r : JobRunRow) :
    (if r.id = id then { r with status := RunStatus.running, endedAt := none, errorText := "" } else r).id
      = r.id := by
  split <;> rfl

/-- Unfolding `resumeDecision` on a database whose benchmark exists and has
a latest run. -/
theorem resumeDecision_eq (db : BenchDB) (last : JobRunRow)
    (hb : db.benchmarkExists = true) (hl : latestRun db.runs = some last) :
    resumeDecision db =
      (if last.status = .completed then .alreadyCompleted last.id
       else if last.status = .running ∨ last.status = .failed then .resume last.id
       else .fresh) := by
  unfold resumeDecision
  rw [hb]
  simp only [if_true, hl]

/-! ### C3 -/

/-- Counterexample for claim C3: with a single `aborted` latest JobRun the
code does not reopen it — it creates a brand-new JobRun (id 2) and leaves
the aborted row untouched. -/
theorem claim_C3_counterexample :
    resumeDecision ⟨true, [⟨1, .aborted, some 5, "boom"⟩]⟩ = Decision.fresh
    ∧ (applyDecision ⟨true, [⟨1, .aborted, some 5, "boom"⟩]⟩).2 = some 2
    ∧ (applyDecision ⟨true, [⟨1, .aborted, some 5, "boom"⟩]⟩).1.runs
        = [⟨1, .aborted, some 5, "boom"⟩, ⟨2, .running, none, ""⟩] := by
  refine ⟨rfl, rfl, rfl⟩

/-- Claim C3 (amended): only a latest JobRun with status `running` or
`failed` is reopened; a latest `aborted` JobRun is left untouched and a
fresh JobRun (with a new id) is created instead. -/
theorem claim_C3 (db : BenchDB) (last : JobRunRow)
    (hb : db.benchmarkExists = true) (hl : latestRun db.runs = some last) :
    ((last.status = .running ∨ last.status = .failed) →
      resumeDecision db = .resume last.id
      ∧ (applyDecision db).2 = some last.id
      ∧ (applyDecision db).1.runs = reopenRun db.runs last.id
      ∧ statusOf (reopenRun db.runs last.id) last.id = some .running)
    ∧ (last.status = .aborted →
      resumeDecision db = .fresh
      ∧ (applyDecision db).2 = some (nextRunId db.runs)
      ∧ (applyDecision db).1.runs
          = db.runs ++ [⟨nextRunId db.runs, .running, none, ""⟩]) := by
  have hdec := resumeDecision_eq db last hb hl
  constructor
  · intro hst
    have hne : ¬ last.status = RunStatus.completed := by
      rcases hst with h | h <;> simp [h]
    have hd : resumeDecision db = .resume last.id := by
      rw [hdec, if_neg hne, if_pos hst]
    refine ⟨hd, ?_, ?_, ?_⟩
    · unfold applyDecision; rw [hd]
    · unfold applyDecision; rw [hd]
    · exact statusOf_reopen db.runs last.id ⟨last, latestRun_mem hl, rfl⟩
  · intro hst
    have hd : resumeDecision db = .fresh := by
      rw [hdec, if_neg (by simp [hst]), if_neg (by simp [hst])]
    refine ⟨hd, ?_, ?_⟩
    · unfold applyDecision; rw [hd]
    · unfold applyDecision; rw [hd]

/-- Witness for claim C3: a `failed` latest run is reopened in place, and an
`aborted` latest run leads to a fresh JobRun. -/
theorem claim_C3_witness :
    (resumeDecision ⟨true, [⟨1, .failed, some 5, "x"⟩]⟩ = Decision.resume 1
      ∧ statusOf (reopenRun [⟨1, .failed, some 5, "x"⟩] 1) 1 = some .running)
    ∧ resumeDecision ⟨true, [⟨1, .aborted, none, ""⟩]⟩ = Decision.fresh := by
  have h1 := claim_C3 ⟨true, [⟨1, .failed, some 5, "x"⟩]⟩ ⟨1, .failed, some 5, "x"⟩ rfl rfl
  have h2 := claim_C3 ⟨true, [⟨1, .aborted, none, ""⟩]⟩ ⟨1, .aborted, none, ""⟩ rfl rfl
  obtain ⟨hd, _, _, hs⟩ := h1.1 (Or.inr rfl)
  exact ⟨⟨hd, hs⟩, (h2.2 rfl).1⟩

/-! ### C4 -/

/-- Counterexample for claim C4: an unexpected exception escaping the run
flow (here: after a fresh JobRun was created) leaves the JobRun in status
`running` — it is never marked `failed` — and the exception propagates. -/
theorem claim_C4_counterexample :
    runFlow ⟨false, []⟩ .raisedExc
      = (⟨true, [⟨1, .running, none, ""⟩]⟩, .raised, false)
    ∧ statusOf (runFlow ⟨false, []⟩ .raisedExc).1.runs 1 = some .running
    ∧ statusOf (runFlow ⟨false, []⟩ .raisedExc).1.runs 1 ≠ some .failed := by
  refine ⟨rfl, rfl, by decide⟩

/-- Claim C4 (amended): an unexpected exception outside per-task isolation
propagates to the caller without any status update; the JobRun stays
`running` (not `failed`), which is still a resumable state — the next
`post_onboard_evaluation` call resumes that same JobRun. -/
theorem claim_C4 (db db1 : BenchDB) (jrId : ℕ)
    (h : applyDecision db = (db1, some jrId)) :
    runFlow db .raisedExc = (db1, .raised, false)
    ∧ statusOf db1.runs jrId = some .running
    ∧ resumeDecision db1 = .resume jrId := by
  have hflow : runFlow db .raisedExc = (db1, .raised, false) := by
    unfold runFlow
    rw [h]
  refine ⟨hflow, ?_⟩
  unfold applyDecision at h
  rcases hdec : resumeDecision db with id | id | _ <;> rw [hdec] at h
  · cases h
  · -- resume path: the decision came from a latest running/failed row
    injection h with h1 h2
    injection h2 with h2
    subst h1 h2
    -- extract the latest row behind the decision
    have hbex : db.benchmarkExists = true := by
      by_contra hb
      have hb2 : db.benchmarkExists = false := by
        cases hbx : db.benchmarkExists
        · rfl
        · exact absurd hbx hb
      unfold resumeDecision at hdec
      rw [hb2] at hdec
      cases hdec
    rcases hlast : latestRun db.runs with _ | last
    · unfold resumeDecision at hdec
      rw [hbex, hlast] at hdec
      cases hdec
    · have hid : last.id = id := by
        have := resumeDecision_eq db last hbex hlast
        rw [hdec] at this
        by_cases h1 : last.status = RunStatus.completed
        · rw [if_pos h1] at this; cases this
        · rw [if_neg h1] at this
          by_cases h2 : last.status = RunStatus.running ∨ last.status = RunStatus.failed
          · rw [if_pos h2] at this
            injection this with hinj
            exact hinj.symm
          · rw [if_neg h2] at this; cases this
      constructor
      · exact statusOf_reopen db.runs id ⟨last, latestRun_mem hlast, hid⟩
      · -- the reopened latest row is `running`, hence resumable
        have hmap : latestRun (reopenRun db.runs id)
            = some (if last.id = id then
                { last with status := RunStatus.running, endedAt := none, errorText := "" }
              else last) := by
          have h3 := latestRun_map_id db.runs
            (fun r => if r.id = id then
                { r with status := RunStatus.running, endedAt := none, errorText := "" }
              else r)
            (reopen_id_preserving id)
          unfold reopenRun
          rw [h3, hlast]
          rfl
        rw [if_pos hid] at hmap
        have := resumeDecision_eq ⟨db.benchmarkExists, reopenRun db.runs id⟩ _ hbex hmap
        simpa [hid] using this
  · -- fresh path
    injection h with h1 h2
    injection h2 with h2
    subst h2
    have hruns : db1.runs = db.runs ++ [⟨nextRunId db.runs, .running, none, ""⟩] := by
      rw [← h1]
    have hbex1 : db1.benchmarkExists = true := by rw [← h1]
    have hne : ∀ x ∈ db.runs, x.id ≠ nextRunId db.runs :=
      fun x hx => Nat.ne_of_lt (lt_nextRunId db.runs x hx)
    constructor
    · rw [hruns]
      exact statusOf_append_new db.runs ⟨nextRunId db.runs, .running, none, ""⟩ hne
    · have hlast : latestRun db1.runs = some ⟨nextRunId db.runs, .running, none, ""⟩ := by
        rw [hruns]
        exact latestRun_append_gt db.runs _ (lt_nextRunId db.runs)
      have := resumeDecision_eq db1 _ hbex1 hlast
      simpa using this

/-- Witness for claim C4 at a concrete database. -/
theorem claim_C4_witness :
    runFlow ⟨true, [⟨1, .failed, some 9, "db down"⟩]⟩ .raisedExc
      = (⟨true, [⟨1, .running, none, ""⟩]⟩, .raised, false)
    ∧ statusOf [⟨1, (.running : RunStatus), none, ""⟩] 1 = some .running
    ∧ resumeDecision ⟨true, [⟨1, .running, none, ""⟩]⟩ = .resume 1 := by
  have h := claim_C4 ⟨true, [⟨1, .failed, some 9, "db down"⟩]⟩
    ⟨true, [⟨1, .running, none, ""⟩]⟩ 1 (by decide)
  exact h

/-! ### C5 -/

/-- Counterexample for claim C5: a bucket whose reference tokenizes to no
words (`N = 0`) but whose hypothesis has a word yields WER `= 1`, not `0`
(the `max(1, N)` clamp only avoids the division by zero; it does not make
the result 0). -/
theorem claim_C5_counterexample :
    (corpusCounts [([], ["a"])]).2.2.2 = 0
    ∧ corpusWer [([], ["a"])] = 1
    ∧ ¬ corpusWer [([], ["a"])] = 0 := by
  have h : corpusCounts [([], ["a"])] = (0, 0, 1, 0) := by decide
  refine ⟨by rw [h], ?_, ?_⟩
  · rw [corpusWer, h]; norm_num
  · rw [corpusWer, h]; norm_num

/-- Claim C5 (amended): corpus WER is `(S+D+I) / max(1, N)` for the DP
edit-distance counts (ties on backtrack preferring diagonal over up over
left), accumulated over the bucket; for refs `["a b c"]`, hyps `["a x c"]`
the counts are `S=1, D=0, I=0, N=3` and WER `= 1/3`; the denominator is
clamped to at least 1 so `N = 0` never divides by zero (the result is then
`(S+D+I)/1`, which is 0 for an empty bucket but not in general). -/
theorem claim_C5 :
    (∀ pairs : List (List String × List String),
      corpusWer pairs * ((max 1 (corpusCounts pairs).2.2.2 : ℕ) : ℚ)
        = (((corpusCounts pairs).1 + (corpusCounts pairs).2.1 + (corpusCounts pairs).2.2.1 : ℕ) : ℚ))
    ∧ (∀ pairs : List (List String × List String),
        1 ≤ max 1 (corpusCounts pairs).2.2.2)
    ∧ editCounts ["a", "b", "c"] ["a", "x", "c"] = (1, 0, 0)
    ∧ corpusCounts [(["a", "b", "c"], ["a", "x", "c"])] = (1, 0, 0, 3)
    ∧ corpusWer [(["a", "b", "c"], ["a", "x", "c"])] = 1 / 3
    ∧ corpusWer [] = 0 := by
  refine ⟨?_, ?_, by decide, by decide, ?_, ?_⟩
  · intro pairs
    have h1 : 0 < max 1 (corpusCounts pairs).2.2.2 :=
      Nat.lt_of_lt_of_le Nat.zero_lt_one (Nat.le_max_left _ _)
    have hden : (((max 1 (corpusCounts pairs).2.2.2 : ℕ)) : ℚ) ≠ 0 :=
      Nat.cast_ne_zero.mpr (Nat.pos_iff_ne_zero.mp h1)
    simp only [corpusWer]
    exact div_mul_cancel₀ _ hden
  · intro pairs
    exact Nat.le_max_left _ _
  · have h : corpusCounts [(["a", "b", "c"], ["a", "x", "c"])] = (1, 0, 0, 3) := by decide
    rw [corpusWer, h]; norm_num
  · have h : corpusCounts ([] : List (List String × List String)) = (0, 0, 0, 0) := by decide
    rw [corpusWer, h]; norm_num

/-! ### C9 -/

/-- Claim C9: every LatencySample written for a successful inference has a
non-null RTF — `elapsed/duration` with no missing-duration marker when the
duration is known and positive, `0.0` with the marker otherwise — and the
evaluation's RTF aggregate input consists exactly of the samples whose
duration is known and positive (removing the missing-duration rows first
changes nothing). -/
theorem claim_C9 :
    (∀ (e : ℚ) (d : Option ℚ), (writePredLatency e d).rtf.isSome = true)
    ∧ (∀ (e dd : ℚ), 0 < dd →
        (writePredLatency e (some dd)).rtf = some (e / dd)
        ∧ (writePredLatency e (some dd)).rtfMissingDuration = false)
    ∧ (∀ (e : ℚ), (writePredLatency e none).rtf = some 0
        ∧ (writePredLatency e none).rtfMissingDuration = true)
    ∧ (∀ (e dd : ℚ), ¬ 0 < dd →
        (writePredLatency e (some dd)).rtf = some 0
        ∧ (writePredLatency e (some dd)).rtfMissingDuration = true)
    ∧ (∀ rows : List (ℚ × Option ℚ),
        rtfAggregateInput rows = rtfAggregateInput (rows.filter durKnownPos)) := by
  refine ⟨?_, ?_, ?_, ?_, ?_⟩
  · intro e d
    match d with
    | none => rfl
    | some dd =>
      by_cases h : 0 < dd <;> simp [writePredLatency, h]
  · intro e dd h
    constructor <;> simp [writePredLatency, h]
  · intro e
    exact ⟨rfl, rfl⟩
  · intro e dd h
    constructor <;> simp [writePredLatency, h]
  · intro rows
    induction rows with
    | nil => rfl
    | cons r rs ih =>
      match hr : r with
      | (lat, none) => simpa [rtfAggregateInput, durKnownPos] using ih
      | (lat, some dd) =>
        by_cases h : 0 < dd <;>
          simpa [rtfAggregateInput, durKnownPos, h] using ih

/-- Witness for claim C9 at concrete samples. -/
theorem claim_C9_witness :
    (writePredLatency 2 (some 4)).rtf = some (2 / 4)
    ∧ (writePredLatency 2 (some 4)).rtfMissingDuration = false
    ∧ (writePredLatency 2 (some 0)).rtf = some 0
    ∧ (writePredLatency 2 (some 0)).rtfMissingDuration = true := by
  have h := claim_C9
  have h1 := h.2.1 2 4 (by norm_num)
  have h2 := h.2.2.2.1 2 0 (by norm_num)
  exact ⟨h1.1, h1.2, h2.1, h2.2⟩

/-! ### Helper lemmas for C7 -/

theorem retryGo_step_retry (env : ℕ → AttemptOutcome) (sw : ℕ → Option (Option ℚ) → ℚ)
    (ew : ℕ → ℚ) (attempt fuel : ℕ) (st : ℕ) (ra : Option (Option ℚ))
    (he : env attempt = .response st ra) (hr : isRetryStatus st = true) :
    retryGo env sw ew attempt (fuel + 1 + 1) =
      ((retryGo env sw ew (attempt + 1) (fuel + 1)).1,
        min (sw attempt ra) 10 :: (retryGo env sw ew (attempt + 1) (fuel + 1)).2) := by
  conv_lhs => rw [retryGo]
  rw [he]
  simp [hr]

theorem retryGo_step_retry_last (env : ℕ → AttemptOutcome) (sw : ℕ → Option (Option ℚ) → ℚ)
    (ew : ℕ → ℚ) (attempt : ℕ) (st : ℕ) (ra : Option (Option ℚ))
    (he : env attempt = .response st ra) (hr : isRetryStatus st = true) :
    retryGo env sw ew attempt 1 = (.httpError st attempt, []) := by
  conv_lhs => rw [retryGo]
  rw [he]
  simp [hr]

theorem retryGo_step_http (env : ℕ → AttemptOutcome) (sw : ℕ → Option (Option ℚ) → ℚ)
    (ew : ℕ → ℚ) (attempt fuel : ℕ) (st : ℕ) (ra : Option (Option ℚ))
    (he : env attempt = .response st ra) (hr : isRetryStatus st = false) (h4 : 400 ≤ st) :
    retryGo env sw ew attempt (fuel + 1) = (.httpError st attempt, []) := by
  conv_lhs => rw [retryGo]
  rw [he]
  simp [hr, h4]

theorem retryGo_step_success (env : ℕ → AttemptOutcome) (sw : ℕ → Option (Option ℚ) → ℚ)
    (ew : ℕ → ℚ) (attempt fuel : ℕ) (st : ℕ) (ra : Option (Option ℚ))
    (he : env attempt = .response st ra) (hr : isRetryStatus st = false) (h4 : ¬ 400 ≤ st) :
    retryGo env sw ew attempt (fuel + 1) = (.success attempt, []) := by
  conv_lhs => rw [retryGo]
  rw [he]
  simp [hr, h4]

theorem retryGo_step_timeout (env : ℕ → AttemptOutcome) (sw : ℕ → Option (Option ℚ) → ℚ)
    (ew : ℕ → ℚ) (attempt fuel : ℕ) (he : env attempt = .timeoutErr) :
    retryGo env sw ew attempt (fuel + 1 + 1) =
      ((retryGo env sw ew (attempt + 1) (fuel + 1)).1,
        min (ew attempt) 10 :: (retryGo env sw ew (attempt + 1) (fuel + 1)).2) := by
  conv_lhs => rw [retryGo]
  rw [he]
  simp

theorem retryGo_step_timeout_last (env : ℕ → AttemptOutcome) (sw : ℕ → Option (Option ℚ) → ℚ)
    (ew : ℕ → ℚ) (attempt : ℕ) (he : env attempt = .timeoutErr) :
    retryGo env sw ew attempt 1 = (.transportError attempt, []) := by
  conv_lhs => rw [retryGo]
  rw [he]
  simp

theorem retryGo_step_conn (env : ℕ → AttemptOutcome) (sw : ℕ → Option (Option ℚ) → ℚ)
    (ew : ℕ → ℚ) (attempt fuel : ℕ) (he : env attempt = .connectionErr) :
    retryGo env sw ew attempt (fuel + 1 + 1) =
      ((retryGo env sw ew (attempt + 1) (fuel + 1)).1,
        min (ew attempt) 10 :: (retryGo env sw ew (attempt + 1) (fuel + 1)).2) := by
  conv_lhs => rw [retryGo]
  rw [he]
  simp

theorem retryGo_step_conn_last (env : ℕ → AttemptOutcome) (sw : ℕ → Option (Option ℚ) → ℚ)
    (ew : ℕ → ℚ) (attempt : ℕ) (he : env attempt = .connectionErr) :
    retryGo env sw ew attempt 1 = (.transportError attempt, []) := by
  conv_lhs => rw [retryGo]
  rw [he]
  simp

theorem retryGo_bound (env : ℕ → AttemptOutcome) (sw : ℕ → Option (Option ℚ) → ℚ)
    (ew : ℕ → ℚ) :
    ∀ (fuel attempt : ℕ),
      attemptOf (retryGo env sw ew attempt (fuel + 1)).1 ≤ attempt + fuel
      ∧ (retryGo env sw ew attempt (fuel + 1)).2.length ≤ fuel := by
  intro fuel
  induction fuel with
  | zero =>
    intro attempt
    cases he : env attempt with
    | response st ra =>
      by_cases hr : isRetryStatus st = true
      · rw [retryGo_step_retry_last env sw ew attempt st ra he hr]
        simp [attemptOf]
      · have hr2 : isRetryStatus st = false := by
          cases h : isRetryStatus st
          · rfl
          · exact absurd h hr
        by_cases h4 : 400 ≤ st
        · rw [retryGo_step_http env sw ew attempt 0 st ra he hr2 h4]
          simp [attemptOf]
        · rw [retryGo_step_success env sw ew attempt 0 st ra he hr2 h4]
          simp [attemptOf]
    | timeoutErr =>
      rw [retryGo_step_timeout_last env sw ew attempt he]
      simp [attemptOf]
    | connectionErr =>
      rw [retryGo_step_conn_last env sw ew attempt he]
      simp [attemptOf]
  | succ f ih =>
    intro attempt
    cases he : env attempt with
    | response st ra =>
      by_cases hr : isRetryStatus st = true
      · rw [retryGo_step_retry env sw ew attempt f st ra he hr]
        have h := ih (attempt + 1)
        constructor
        · simp only []
          omega
        · simp only [List.length_cons]
          omega
      · have hr2 : isRetryStatus st = false := by
          cases h : isRetryStatus st
          · rfl
          · exact absurd h hr
        by_cases h4 : 400 ≤ st
        · rw [retryGo_step_http env sw ew attempt (f + 1) st ra he hr2 h4]
          simp [attemptOf]
        · rw [retryGo_step_success env sw ew attempt (f + 1) st ra he hr2 h4]
          simp [attemptOf]
    | timeoutErr =>
      rw [retryGo_step_timeout env sw ew attempt f he]
      have h := ih (attempt + 1)
      constructor
      · simp only []
        omega
      · simp only [List.length_cons]
        omega
    | connectionErr =>
      rw [retryGo_step_conn env sw ew attempt f he]
      have h := ih (attempt + 1)
      constructor
      · simp only []
        omega
      · simp only [List.length_cons]
        omega

theorem retryGo_waits_le (env : ℕ → AttemptOutcome) (sw : ℕ → Option (Option ℚ) → ℚ)
    (ew : ℕ → ℚ) :
    ∀ (fuel attempt : ℕ) (w : ℚ), w ∈ (retryGo env sw ew attempt (fuel + 1)).2 → w ≤ 10 := by
  intro fuel
  induction fuel with
  | zero =>
    intro attempt w hw
    cases he : env attempt with
    | response st ra =>
      by_cases hr : isRetryStatus st = true
      · rw [retryGo_step_retry_last env sw ew attempt st ra he hr] at hw
        simp at hw
      · have hr2 : isRetryStatus st = false := by
          cases h : isRetryStatus st
          · rfl
          · exact absurd h hr
        by_cases h4 : 400 ≤ st
        · rw [retryGo_step_http env sw ew attempt 0 st ra he hr2 h4] at hw
          simp at hw
        · rw [retryGo_step_success env sw ew attempt 0 st ra he hr2 h4] at hw
          simp at hw
    | timeoutErr =>
      rw [retryGo_step_timeout_last env sw ew attempt he] at hw
      simp at hw
    | connectionErr =>
      rw [retryGo_step_conn_last env sw ew attempt he] at hw
      simp at hw
  | succ f ih =>
    intro attempt w hw
    cases he : env attempt with
    | response st ra =>
      by_cases hr : isRetryStatus st = true
      · rw [retryGo_step_retry env sw ew attempt f st ra he hr] at hw
        rcases List.mem_cons.mp hw with rfl | hw1
        · exact min_le_right _ _
        · exact ih (attempt + 1) w hw1
      · have hr2 : isRetryStatus st = false := by
          cases h : isRetryStatus st
          · rfl
          · exact absurd h hr
        by_cases h4 : 400 ≤ st
        · rw [retryGo_step_http env sw ew attempt (f + 1) st ra he hr2 h4] at hw
          simp at hw
        · rw [retryGo_step_success env sw ew attempt (f + 1) st ra he hr2 h4] at hw
          simp at hw
    | timeoutErr =>
      rw [retryGo_step_timeout env sw ew attempt f he] at hw
      rcases List.mem_cons.mp hw with rfl | hw1
      · exact min_le_right _ _
      · exact ih (attempt + 1) w hw1
    | connectionErr =>
      rw [retryGo_step_conn env sw ew attempt f he] at hw
      rcases List.mem_cons.mp hw with rfl | hw1
      · exact min_le_right _ _
      · exact ih (attempt + 1) w hw1

theorem retryGo_exhaust (env : ℕ → AttemptOutcome) (sw : ℕ → Option (Option ℚ) → ℚ)
    (ew : ℕ → ℚ) :
    ∀ (fuel attempt : ℕ),
      (∀ k, attempt ≤ k → k ≤ attempt + fuel → isTransient (env k) = true) →
      (retryGo env sw ew attempt (fuel + 1)).1
        = lastError (attempt + fuel) (env (attempt + fuel)) := by
  intro fuel
  induction fuel with
  | zero =>
    intro attempt h
    have ht := h attempt (Nat.le_refl _) (Nat.le_refl _)
    cases he : env attempt with
    | response st ra =>
      rw [he] at ht
      simp only [isTransient] at ht
      rw [retryGo_step_retry_last env sw ew attempt st ra he ht]
      simp [lastError, he]
    | timeoutErr =>
      rw [retryGo_step_timeout_last env sw ew attempt he]
      simp [lastError, he]
    | connectionErr =>
      rw [retryGo_step_conn_last env sw ew attempt he]
      simp [lastError, he]
  | succ f ih =>
    intro attempt h
    have ht := h attempt (Nat.le_refl _) (Nat.le_add_right _ _)
    have hnext : ∀ k, attempt + 1 ≤ k → k ≤ attempt + 1 + f → isTransient (env k) = true :=
      fun k hk1 hk2 => h k (Nat.le_of_succ_le hk1) (by omega)
    have hrec := ih (attempt + 1) hnext
    have harith : attempt + 1 + f = attempt + (f + 1) := by omega
    rw [harith] at hrec
    cases he : env attempt with
    | response st ra =>
      rw [he] at ht
      simp only [isTransient] at ht
      rw [retryGo_step_retry env sw ew attempt f st ra he ht]
      exact hrec
    | timeoutErr =>
      rw [retryGo_step_timeout env sw ew attempt f he]
      exact hrec
    | connectionErr =>
      rw [retryGo_step_conn env sw ew attempt f he]
      exact hrec

theorem retryGo_first_wait (env : ℕ → AttemptOutcome) (sw : ℕ → Option (Option ℚ) → ℚ)
    (ew : ℕ → ℚ) (st : ℕ) (ra : Option (Option ℚ)) (attempt fuel : ℕ)
    (he : env attempt = .response st ra) (hr : isRetryStatus st = true) :
    (retryGo env sw ew attempt (fuel + 1 + 1)).2.head? = some (min (sw attempt ra) 10) := by
  rw [retryGo_step_retry env sw ew attempt fuel st ra he hr]
  rfl

/-! ### C7 -/

/-- Claim C7: both providers' retry loops retry transient statuses
(429/5xx) and transport errors up to 6 attempts with every sleep capped at
10 seconds, use the parsed `Retry-After` value for the wait when present,
propagate a non-transient 4xx immediately on the first attempt with no
sleeps, and raise the last error when all 6 attempts are transient. -/
theorem claim_C7 (env : ℕ → AttemptOutcome) (jitter : ℕ → ℚ) :
    (attemptOf (openaiPostWithRetries env jitter).1 ≤ 6
      ∧ (openaiPostWithRetries env jitter).2.length ≤ 5)
    ∧ (∀ w ∈ (openaiPostWithRetries env jitter).2, w ≤ 10)
    ∧ (∀ st ra, env 1 = .response st ra → isRetryStatus st = false → 400 ≤ st →
        openaiPostWithRetries env jitter = (.httpError st 1, []))
    ∧ ((∀ k, 1 ≤ k → k ≤ 6 → isTransient (env k) = true) →
        (openaiPostWithRetries env jitter).1 = lastError 6 (env 6))
    ∧ (∀ st v, env 1 = .response st (some (some v)) → isRetryStatus st = true →
        (openaiPostWithRetries env jitter).2.head? = some (min v 10))
    ∧ (attemptOf (deepgramPostWithRetries env jitter).1 ≤ 6
      ∧ (deepgramPostWithRetries env jitter).2.length ≤ 5)
    ∧ (∀ w ∈ (deepgramPostWithRetries env jitter).2, w ≤ 10)
    ∧ (∀ st ra, env 1 = .response st ra → isRetryStatus st = false → 400 ≤ st →
        deepgramPostWithRetries env jitter = (.httpError st 1, []))
    ∧ ((∀ k, 1 ≤ k → k ≤ 6 → isTransient (env k) = true) →
        (deepgramPostWithRetries env jitter).1 = lastError 6 (env 6))
    ∧ (∀ st v, env 1 = .response st (some (some v)) → isRetryStatus st = true →
        (deepgramPostWithRetries env jitter).2.head? = some (min (v + jitter 1) 10)) := by
  have hb1 := retryGo_bound env (openaiStatusWait jitter) (fun a => expBackoff a + jitter a) 5 1
  have hb2 := retryGo_bound env (deepgramStatusWait jitter) (fun a => expBackoff a + jitter a) 5 1
  refine ⟨⟨by simpa using hb1.1, by simpa using hb1.2⟩,
    fun w hw => retryGo_waits_le env _ _ 5 1 w hw,
    fun st ra he hnr h4 => retryGo_step_http env _ _ 1 5 st ra he hnr h4,
    fun h => by
      have := retryGo_exhaust env (openaiStatusWait jitter) (fun a => expBackoff a + jitter a) 5 1
        (fun k hk1 hk2 => h k hk1 (by omega))
      simpa using this,
    fun st v he hr => by
      have := retryGo_first_wait env (openaiStatusWait jitter)
        (fun a => expBackoff a + jitter a) st (some (some v)) 1 4 he hr
      simpa [openaiStatusWait] using this,
    ⟨by simpa using hb2.1, by simpa using hb2.2⟩,
    fun w hw => retryGo_waits_le env _ _ 5 1 w hw,
    fun st ra he hnr h4 => retryGo_step_http env _ _ 1 5 st ra he hnr h4,
    fun h => by
      have := retryGo_exhaust env (deepgramStatusWait jitter) (fun a => expBackoff a + jitter a) 5 1
        (fun k hk1 hk2 => h k hk1 (by omega))
      simpa using this,
    fun st v he hr => by
      have := retryGo_first_wait env (deepgramStatusWait jitter)
        (fun a => expBackoff a + jitter a) st (some (some v)) 1 4 he hr
      simpa [deepgramStatusWait] using this⟩

/-- Witness for claim C7: a plain 404 propagates at once with no sleeps; six
consecutive timeouts raise the last transport error at attempt 6; all
Deepgram sleeps under a large server-provided delay are capped at 10. -/
theorem claim_C7_witness :
    openaiPostWithRetries (fun _ => .response 404 none) (fun _ => 0) = (.httpError 404 1, [])
    ∧ (openaiPostWithRetries (fun _ => .timeoutErr) (fun _ => 0)).1 = .transportError 6
    ∧ ∀ w ∈ (deepgramPostWithRetries (fun _ => .response 429 (some (some 50))) (fun _ => 0)).2,
        w ≤ 10 := by
  refine ⟨?_, ?_, ?_⟩
  · exact (claim_C7 (fun _ => .response 404 none) (fun _ => 0)).2.2.1 404 none rfl
      (by decide) (by decide)
  · have h := (claim_C7 (fun _ => .timeoutErr) (fun _ => 0)).2.2.2.1
      (fun k _ _ => rfl)
    simpa [lastError] using h
  · exact (claim_C7 (fun _ => .response 429 (some (some 50))) (fun _ => 0)).2.2.2.2.2.2.1

/-! ### Helper lemmas for C6 -/

theorem sorted_getD_mono {s : List ℚ} (hs : s.Sorted (· ≤ ·)) {i j : ℕ}
    (hij : i ≤ j) (hj : j < s.length) : s.getD i 0 ≤ s.getD j 0 := by
  have hi : i < s.length := Nat.lt_of_le_of_lt hij hj
  rw [List.getD_eq_getElem s 0 hi, List.getD_eq_getElem s 0 hj]
  have h := hs.rel_get_of_le (a := ⟨i, hi⟩) (b := ⟨j, hj⟩) hij
  simpa using h

theorem interpSorted_mono {s : List ℚ} (hs : s.Sorted (· ≤ ·)) (hne : s ≠ [])
    {h1 h2 : ℚ} (h10 : 0 ≤ h1) (h12 : h1 ≤ h2) (h2n : h2 ≤ (s.length : ℚ) - 1) :
    interpSorted s h1 ≤ interpSorted s h2 := by
  have hn : 1 ≤ s.length := List.length_pos.mpr hne
  have hf1_0 : (0 : ℤ) ≤ ⌊h1⌋ := Int.le_floor.mpr (by exact_mod_cast h10)
  have hf2_0 : (0 : ℤ) ≤ ⌊h2⌋ := Int.le_floor.mpr (by exact_mod_cast le_trans h10 h12)
  have hf12 : ⌊h1⌋ ≤ ⌊h2⌋ := Int.floor_mono h12
  have hf2_n : ⌊h2⌋ ≤ (s.length : ℤ) - 1 := by
    have hm := Int.floor_mono h2n
    have hcast : ((s.length : ℚ) - 1) = (((s.length : ℤ) - 1 : ℤ) : ℚ) := by push_cast; ring
    rw [hcast, Int.floor_intCast] at hm
    exact hm
  have hg1_0 : 0 ≤ h1 - (⌊h1⌋ : ℚ) := sub_nonneg.mpr (Int.floor_le h1)
  have hg1_1 : h1 - (⌊h1⌋ : ℚ) ≤ 1 := by
    have := Int.lt_floor_add_one h1
    linarith
  have hg2_0 : 0 ≤ h2 - (⌊h2⌋ : ℚ) := sub_nonneg.mpr (Int.floor_le h2)
  have hg2_1 : h2 - (⌊h2⌋ : ℚ) ≤ 1 := by
    have := Int.lt_floor_add_one h2
    linarith
  have hi1lt : ⌊h1⌋.toNat < s.length := by omega
  have hi2lt : ⌊h2⌋.toNat < s.length := by omega
  have hm1lt : min (⌊h1⌋.toNat + 1) (s.length - 1) < s.length := by omega
  have hm2lt : min (⌊h2⌋.toNat + 1) (s.length - 1) < s.length := by omega
  have hlohi1 : s.getD ⌊h1⌋.toNat 0 ≤ s.getD (min (⌊h1⌋.toNat + 1) (s.length - 1)) 0 :=
    sorted_getD_mono hs (by omega) hm1lt
  have hlohi2 : s.getD ⌊h2⌋.toNat 0 ≤ s.getD (min (⌊h2⌋.toNat + 1) (s.length - 1)) 0 :=
    sorted_getD_mono hs (by omega) hm2lt
  by_cases hcase : ⌊h1⌋ = ⌊h2⌋
  · simp only [interpSorted, hcase]
    have hd : 0 ≤ s.getD (min (⌊h2⌋.toNat + 1) (s.length - 1)) 0 - s.getD ⌊h2⌋.toNat 0 := by
      linarith
    have hgle : h1 - (⌊h2⌋ : ℚ) ≤ h2 - (⌊h2⌋ : ℚ) := by linarith
    nlinarith [mul_le_mul_of_nonneg_right hgle hd]
  · have hlt : ⌊h1⌋ < ⌊h2⌋ := lt_of_le_of_ne hf12 hcase
    have step1 : interpSorted s h1 ≤ s.getD (min (⌊h1⌋.toNat + 1) (s.length - 1)) 0 := by
      simp only [interpSorted]
      nlinarith [hlohi1, hg1_0, hg1_1]
    have step2 : s.getD (min (⌊h1⌋.toNat + 1) (s.length - 1)) 0 ≤ s.getD ⌊h2⌋.toNat 0 :=
      sorted_getD_mono hs (by omega) hi2lt
    have step3 : s.getD ⌊h2⌋.toNat 0 ≤ interpSorted s h2 := by
      simp only [interpSorted]
      nlinarith [hlohi2, hg2_0]
    linarith

theorem mergeSort_ne_nil {xs : List ℚ} (hne : xs ≠ []) : xs.mergeSort (· ≤ ·) ≠ [] := by
  intro h
  apply hne
  have hlen := @List.length_mergeSort ℚ (fun a b => decide (a ≤ b)) xs
  rw [h] at hlen
  exact List.length_eq_zero.mp hlen.symm

theorem quantileLinear_mono {xs : List ℚ} (hne : xs ≠ []) {q1 q2 : ℚ}
    (h0 : 0 ≤ q1) (h12 : q1 ≤ q2) (h21 : q2 ≤ 1) :
    quantileLinear xs q1 ≤ quantileLinear xs q2 := by
  have hs : (xs.mergeSort (· ≤ ·)).Sorted (· ≤ ·) := List.sorted_mergeSort' xs
  have hsne : xs.mergeSort (· ≤ ·) ≠ [] := mergeSort_ne_nil hne
  have hnz : ¬ (xs.mergeSort (· ≤ ·)).length = 0 :=
    fun h => hsne (List.length_eq_zero.mp h)
  have hn1 : 1 ≤ (xs.mergeSort (· ≤ ·)).length := Nat.one_le_iff_ne_zero.mpr hnz
  have hnn : (0 : ℚ) ≤ ((xs.mergeSort (· ≤ ·)).length : ℚ) - 1 := by
    have : (1 : ℚ) ≤ ((xs.mergeSort (· ≤ ·)).length : ℚ) := by exact_mod_cast hn1
    linarith
  simp only [quantileLinear, if_neg hnz]
  apply interpSorted_mono hs hsne
  · exact mul_nonneg h0 hnn
  · exact mul_le_mul_of_nonneg_right h12 hnn
  · calc q2 * (((xs.mergeSort (· ≤ ·)).length : ℚ) - 1)
        ≤ 1 * (((xs.mergeSort (· ≤ ·)).length : ℚ) - 1) :=
          mul_le_mul_of_nonneg_right h21 hnn
      _ = ((xs.mergeSort (· ≤ ·)).length : ℚ) - 1 := one_mul _

theorem quantileLinear_const {xs : List ℚ} {c q : ℚ} (hne : xs ≠ [])
    (hc : ∀ x ∈ xs, x = c) (hq0 : 0 ≤ q) (hq1 : q ≤ 1) :
    quantileLinear xs q = c := by
  have hsne : xs.mergeSort (· ≤ ·) ≠ [] := mergeSort_ne_nil hne
  have hnz : ¬ (xs.mergeSort (· ≤ ·)).length = 0 :=
    fun h => hsne (List.length_eq_zero.mp h)
  have hn1 : 1 ≤ (xs.mergeSort (· ≤ ·)).length := Nat.one_le_iff_ne_zero.mpr hnz
  have hcs : ∀ x ∈ xs.mergeSort (· ≤ ·), x = c :=
    fun x hx => hc x (List.mem_mergeSort.mp hx)
  have hgetD : ∀ i : ℕ, i < (xs.mergeSort (· ≤ ·)).length →
      (xs.mergeSort (· ≤ ·)).getD i 0 = c := by
    intro i hi
    rw [List.getD_eq_getElem _ 0 hi]
    exact hcs _ (List.getElem_mem _)
  have hnn : (0 : ℚ) ≤ ((xs.mergeSort (· ≤ ·)).length : ℚ) - 1 := by
    have : (1 : ℚ) ≤ ((xs.mergeSort (· ≤ ·)).length : ℚ) := by exact_mod_cast hn1
    linarith
  have hh0 : 0 ≤ q * (((xs.mergeSort (· ≤ ·)).length : ℚ) - 1) := mul_nonneg hq0 hnn
  have hhn : q * (((xs.mergeSort (· ≤ ·)).length : ℚ) - 1)
      ≤ ((xs.mergeSort (· ≤ ·)).length : ℚ) - 1 := by
    calc q * (((xs.mergeSort (· ≤ ·)).length : ℚ) - 1)
        ≤ 1 * (((xs.mergeSort (· ≤ ·)).length : ℚ) - 1) := mul_le_mul_of_nonneg_right hq1 hnn
      _ = _ := one_mul _
  have hf0 : (0 : ℤ) ≤ ⌊q * (((xs.mergeSort (· ≤ ·)).length : ℚ) - 1)⌋ :=
    Int.le_floor.mpr (by exact_mod_cast hh0)
  have hfn : ⌊q * (((xs.mergeSort (· ≤ ·)).length : ℚ) - 1)⌋
      < ((xs.mergeSort (· ≤ ·)).length : ℤ) := by
    apply Int.floor_lt.mpr
    push_cast
    linarith
  simp only [quantileLinear, if_neg hnz, interpSorted]
  rw [hgetD _ (by omega), hgetD _ (by omega)]
  ring

theorem statValues_length (vals : List ℚ) (statFn : List ℚ → ℚ)
    (resamples : List (List ℕ)) :
    (statValues vals statFn resamples).length = resamples.length := by
  simp [statValues]

theorem statValues_const (vals : List ℚ) (statFn : List ℚ → ℚ)
    (resamples : List (List ℕ)) (c : ℚ) (hc : ∀ v ∈ vals, v = c)
    (hwf : ∀ idx ∈ resamples, idx.length = vals.length ∧ ∀ k ∈ idx, k < vals.length) :
    ∀ v ∈ statValues vals statFn resamples, v = statFn (List.replicate vals.length c) := by
  intro v hv
  simp only [statValues, List.mem_map] at hv
  obtain ⟨idx, hidx, rfl⟩ := hv
  congr 1
  apply List.eq_replicate_iff.mpr
  constructor
  · rw [List.length_map]
    exact (hwf idx hidx).1
  · intro b hb
    simp only [List.mem_map] at hb
    obtain ⟨k, hk, rfl⟩ := hb
    have hklt : k < vals.length := (hwf idx hidx).2 k hk
    rw [List.getD_eq_getElem _ 0 hklt]
    exact hc _ (List.getElem_mem _)

/-! ### C6 -/

/-- Counterexample for claim C6: for the non-degenerate sample `[0, 4]` with
the mean statistic, a resampling outcome in which every resample draws index
0 three times produces the interval `(0, 0)`, which does not contain the
point estimate `mean([0,4]) = 2` — the percentile formula does not guarantee
`ci_low ≤ point ≤ ci_high`. -/
theorem claim_C6_counterexample :
    bootstrapCiFromValues [0, 4] listMean [[0, 0], [0, 0], [0, 0]] (19 / 20)
      = .ok (0, 0)
    ∧ listMean [0, 4] = 2
    ∧ ¬ (listMean [0, 4] ≤ 0) := by
  have hstats : statValues [0, 4] listMean [[0, 0], [0, 0], [0, 0]] = [0, 0, 0] := by
    simp [statValues, listMean]
  have hconst : ∀ q : ℚ, 0 ≤ q → q ≤ 1 → quantileLinear [0, 0, 0] q = 0 := by
    intro q h0 h1
    refine quantileLinear_const (by simp) ?_ h0 h1
    intro x hx
    simp only [List.mem_cons, List.not_mem_nil, or_false] at hx
    rcases hx with h | h | h <;> exact h
  refine ⟨?_, by norm_num [listMean], by norm_num [listMean]⟩
  simp only [bootstrapCiFromValues]
  rw [if_neg (by simp)]
  rw [hstats, hconst _ (by norm_num) (by norm_num), hconst _ (by norm_num) (by norm_num)]

/-- Claim C6 (amended): the percentile bootstrap always returns
`ci_low ≤ ci_high`; when every resampled statistic is the same value `c` the
interval degenerates to `(c, c)` — in particular when all sample values are
equal the interval collapses to a point; containment of the point estimate,
however, depends on the resampling outcome and is not guaranteed by the
formula (see the counterexample). -/
theorem claim_C6 :
    (∀ (vals : List ℚ) (statFn : List ℚ → ℚ) (resamples : List (List ℕ)) (conf lo hi : ℚ),
      resamples ≠ [] → 0 ≤ conf → conf ≤ 1 →
      bootstrapCiFromValues vals statFn resamples conf = .ok (lo, hi) →
      lo ≤ hi)
    ∧ (∀ (vals : List ℚ) (statFn : List ℚ → ℚ) (resamples : List (List ℕ)) (conf c lo hi : ℚ),
        resamples ≠ [] → 0 ≤ conf → conf ≤ 1 →
        (∀ v ∈ statValues vals statFn resamples, v = c) →
        bootstrapCiFromValues vals statFn resamples conf = .ok (lo, hi) →
        lo = c ∧ hi = c)
    ∧ (∀ (vals : List ℚ) (statFn : List ℚ → ℚ) (resamples : List (List ℕ)) (conf c lo hi : ℚ),
        resamples ≠ [] → 0 ≤ conf → conf ≤ 1 →
        (∀ v ∈ vals, v = c) →
        (∀ idx ∈ resamples, idx.length = vals.length ∧ ∀ k ∈ idx, k < vals.length) →
        bootstrapCiFromValues vals statFn resamples conf = .ok (lo, hi) →
        lo = hi) := by
  have hkey : ∀ (vals : List ℚ) (statFn : List ℚ → ℚ) (resamples : List (List ℕ))
      (conf lo hi : ℚ),
      bootstrapCiFromValues vals statFn resamples conf = .ok (lo, hi) →
      lo = quantileLinear (statValues vals statFn resamples) ((1 - conf) / 2)
      ∧ hi = quantileLinear (statValues vals statFn resamples) (1 - (1 - conf) / 2) := by
    intro vals statFn resamples conf lo hi hres
    simp only [bootstrapCiFromValues] at hres
    by_cases hv : vals.length = 0
    · rw [if_pos hv] at hres; cases hres
    · rw [if_neg hv] at hres
      injection hres with hres
      injection hres with h1 h2
      exact ⟨h1.symm, h2.symm⟩
  have hne : ∀ (vals : List ℚ) (statFn : List ℚ → ℚ) (resamples : List (List ℕ)),
      resamples ≠ [] → statValues vals statFn resamples ≠ [] := by
    intro vals statFn resamples hr h
    apply hr
    have := statValues_length vals statFn resamples
    rw [h] at this
    exact List.length_eq_zero.mp this.symm
  refine ⟨?_, ?_, ?_⟩
  · intro vals statFn resamples conf lo hi hr h0 h1 hres
    obtain ⟨hlo, hhi⟩ := hkey vals statFn resamples conf lo hi hres
    rw [hlo, hhi]
    exact quantileLinear_mono (hne vals statFn resamples hr)
      (by linarith) (by linarith) (by linarith)
  · intro vals statFn resamples conf c lo hi hr h0 h1 hc hres
    obtain ⟨hlo, hhi⟩ := hkey vals statFn resamples conf lo hi hres
    constructor
    · rw [hlo]
      exact quantileLinear_const (hne vals statFn resamples hr) hc
        (by linarith) (by linarith)
    · rw [hhi]
      exact quantileLinear_const (hne vals statFn resamples hr) hc
        (by linarith) (by linarith)
  · intro vals statFn resamples conf c lo hi hr h0 h1 hc hwf hres
    obtain ⟨hlo, hhi⟩ := hkey vals statFn resamples conf lo hi hres
    have hconstStats := statValues_const vals statFn resamples c hc hwf
    rw [hlo, hhi,
      quantileLinear_const (hne vals statFn resamples hr) hconstStats
        (by linarith) (by linarith),
      quantileLinear_const (hne vals statFn resamples hr) hconstStats
        (by linarith) (by linarith)]

/-- Witness for claim C6: an all-equal sample `[2, 2]` collapses both CI
bounds to the common value. -/
theorem claim_C6_witness :
    quantileLinear (statValues [2, 2] listMean [[0, 1]]) ((1 - 19 / 20) / 2) = 2
    ∧ quantileLinear (statValues [2, 2] listMean [[0, 1]]) (1 - (1 - 19 / 20) / 2) = 2 := by
  have h := claim_C6.2.1 [2, 2] listMean [[0, 1]] (19 / 20) 2
    (quantileLinear (statValues [2, 2] listMean [[0, 1]]) ((1 - 19 / 20) / 2))
    (quantileLinear (statValues [2, 2] listMean [[0, 1]]) (1 - (1 - 19 / 20) / 2))
    (by simp) (by norm_num) (by norm_num)
    (by
      intro v hv
      simp [statValues, listMean] at hv
      linarith)
    rfl
  exact h

/-! ### Helper lemmas for C10 -/

theorem bisect_foldl_inv (φ : ℚ → ℚ) (p : ℚ) (l : List ℕ) :
    ∀ lh : ℚ × ℚ, 0 ≤ lh.1 → lh.1 ≤ lh.2 →
      0 ≤ (l.foldl (fun lh _ => bisectStep φ p lh) lh).1
      ∧ (l.foldl (fun lh _ => bisectStep φ p lh) lh).1
          ≤ (l.foldl (fun lh _ => bisectStep φ p lh) lh).2 := by
  induction l with
  | nil => intro lh h1 h2; exact ⟨h1, h2⟩
  | cons x rest ih =>
    intro lh h1 h2
    have hmid1 : lh.1 ≤ (lh.1 + lh.2) / 2 := by linarith
    have hmid2 : (lh.1 + lh.2) / 2 ≤ lh.2 := by linarith
    simp only [List.foldl_cons]
    by_cases hc : φ ((lh.1 + lh.2) / 2) < p
    · have hb : bisectStep φ p lh = ((lh.1 + lh.2) / 2, lh.2) := by
        simp [bisectStep, hc]
      rw [hb]
      exact ih _ (by simpa using le_trans h1 hmid1) (by simpa using hmid2)
    · have hb : bisectStep φ p lh = (lh.1, (lh.1 + lh.2) / 2) := by
        simp [bisectStep, hc]
      rw [hb]
      exact ih _ (by simpa using h1) (by simpa using hmid1)

theorem zBisect_nonneg (φ : ℚ → ℚ) (p : ℚ) (hp : φ 0 < p) : 0 ≤ zBisect φ p := by
  have h60 : List.range 60 = 0 :: (List.range 60).tail := rfl
  have hfirst : bisectStep φ p (-8, 8) = (0, 8) := by
    have hm : ((-8 : ℚ) + 8) / 2 = 0 := by norm_num
    simp only [bisectStep, hm]
    rw [if_pos hp]
  have hinv := bisect_foldl_inv φ p (List.range 60).tail (0, 8) (by norm_num) (by norm_num)
  simp only [zBisect]
  rw [h60, List.foldl_cons, hfirst]
  linarith [hinv.1, hinv.2]

/-! ### C10 -/

/-- Claim C10: the bisection `_z` output is nonnegative whenever the CDF at
0 lies below the target probability (as it does for the normal CDF with
`p = 1 - alpha/2 > 1/2`), and for every nonempty sorted sample, quantile
`0 < q < 1`, and nonnegative `z`, `σ` the order-statistic CI's ranks
`k_lo`, `k_hi` lie in `[1, n]` (so the indexing is in bounds), and the
returned bounds are elements of the sample with `ci_low ≤ ci_high` — hence
they lie within the sample's minimum and maximum. -/
theorem claim_C10 :
    (∀ (φ : ℚ → ℚ) (p : ℚ), φ 0 < p → 0 ≤ zBisect φ p)
    ∧ (∀ (vals : List ℚ) (q z σ : ℚ), vals.Sorted (· ≤ ·) → vals ≠ [] →
        0 < q → q < 1 → 0 ≤ z → 0 ≤ σ →
        ∃ lo hi, orderstatCI vals q z σ = some (lo, hi)
          ∧ 1 ≤ kLoRank vals.length q z σ
          ∧ kLoRank vals.length q z σ ≤ (vals.length : ℤ)
          ∧ 1 ≤ kHiRank vals.length q z σ
          ∧ kHiRank vals.length q z σ ≤ (vals.length : ℤ)
          ∧ kLoRank vals.length q z σ ≤ kHiRank vals.length q z σ
          ∧ lo ∈ vals ∧ hi ∈ vals ∧ lo ≤ hi) := by
  refine ⟨zBisect_nonneg, ?_⟩
  intro vals q z σ hs hne hq0 hq1 hz hσ
  have hn1 : 1 ≤ vals.length := List.length_pos.mpr hne
  have hnq : (0 : ℚ) < (vals.length : ℚ) := by exact_mod_cast hn1
  have hmu_pos : 0 < (vals.length : ℚ) * q := mul_pos hnq hq0
  have hmu_lt : (vals.length : ℚ) * q < (vals.length : ℚ) := by
    nlinarith
  have hzσ : 0 ≤ z * σ := mul_nonneg hz hσ
  -- kLo bounds
  have hkLo1 : 1 ≤ kLoRank vals.length q z σ := le_max_left _ _
  have hfloor_lt : ⌊(vals.length : ℚ) * q - z * σ⌋ < (vals.length : ℤ) :=
    Int.floor_lt.mpr (by push_cast; linarith)
  have hkLon : kLoRank vals.length q z σ ≤ (vals.length : ℤ) := by
    unfold kLoRank
    omega
  -- kHi bounds
  have hceil_pos : 0 < ⌈(vals.length : ℚ) * q + z * σ⌉ := by
    have : (0 : ℚ) < (vals.length : ℚ) * q + z * σ := by linarith
    exact Int.lt_ceil.mpr (by push_cast; linarith)
  have hkHi1 : 1 ≤ kHiRank vals.length q z σ := by
    unfold kHiRank
    omega
  have hkHin : kHiRank vals.length q z σ ≤ (vals.length : ℤ) := min_le_left _ _
  -- kLo ≤ kHi
  have hfc : ⌊(vals.length : ℚ) * q - z * σ⌋ ≤ ⌈(vals.length : ℚ) * q + z * σ⌉ := by
    have h1 := Int.floor_le ((vals.length : ℚ) * q - z * σ)
    have h2 := Int.le_ceil ((vals.length : ℚ) * q + z * σ)
    have : ((⌊(vals.length : ℚ) * q - z * σ⌋ : ℤ) : ℚ)
        ≤ ((⌈(vals.length : ℚ) * q + z * σ⌉ : ℤ) : ℚ) := by linarith
    exact_mod_cast this
  have hkk : kLoRank vals.length q z σ ≤ kHiRank vals.length q z σ := by
    unfold kLoRank kHiRank
    omega
  -- indices in bounds
  have hiLo : (kLoRank vals.length q z σ).toNat - 1 < vals.length := by omega
  have hiHi : (kHiRank vals.length q z σ).toNat - 1 < vals.length := by omega
  have hii : (kLoRank vals.length q z σ).toNat - 1 ≤ (kHiRank vals.length q z σ).toNat - 1 := by
    omega
  refine ⟨vals.getD ((kLoRank vals.length q z σ).toNat - 1) 0,
    vals.getD ((kHiRank vals.length q z σ).toNat - 1) 0, ?_,
    hkLo1, hkLon, hkHi1, hkHin, hkk, ?_, ?_, ?_⟩
  · simp only [orderstatCI]
    rw [if_neg (by omega)]
  · rw [List.getD_eq_getElem _ 0 hiLo]
    exact List.getElem_mem _
  · rw [List.getD_eq_getElem _ 0 hiHi]
    exact List.getElem_mem _
  · exact sorted_getD_mono hs hii hiHi

/-- Witness for claim C10 at a concrete CDF and a concrete sorted sample. -/
theorem claim_C10_witness :
    0 ≤ zBisect (fun _ => 0) (39 / 40)
    ∧ ∃ lo hi, orderstatCI [1, 2, 3] (1 / 2) 2 1 = some (lo, hi)
        ∧ lo ∈ [(1 : ℚ), 2, 3] ∧ hi ∈ [(1 : ℚ), 2, 3] ∧ lo ≤ hi := by
  constructor
  · exact claim_C10.1 (fun _ => 0) (39 / 40) (by norm_num)
  · obtain ⟨lo, hi, h1, _, _, _, _, _, hlo, hhi, hle⟩ :=
      claim_C10.2 [1, 2, 3] (1 / 2) 2 1 (by decide) (by simp)
        (by norm_num) (by norm_num) (by norm_num) (by norm_num)
    exact ⟨lo, hi, h1, hlo, hhi, hle⟩

/-! ### Helper lemmas for C2 -/

theorem lt_length_of_getElem? {l : List TaskStatus} {i : ℕ} {a : TaskStatus}
    (h : l[i]? = some a) : i < l.length := by
  by_contra hc
  rw [List.getElem?_eq_none (Nat.le_of_not_lt hc)] at h
  cases h

/-- One cancelled-mode step: with the cancel flag already set, any enabled
transition keeps the flag, performs no provider call, never revives a
cancelled future, does not run the evaluation, and can only move the final
status to `aborted`. -/
theorem execStep_cancel_inv {s s1 : ExecState} {e : ExecEv}
    (h : execStep s e = some s1) (hc : s.cancelFlag = true) :
    s1.cancelFlag = true
    ∧ s1.providerCalls = s.providerCalls
    ∧ (∀ i : ℕ, s.tasks[i]? = some TaskStatus.futCancelled → s1.tasks[i]? = some TaskStatus.futCancelled)
    ∧ s1.evalRan = s.evalRan
    ∧ (s1.finalStatus = s.finalStatus ∨ s1.finalStatus = some .aborted) := by
  cases e with
  | setCancel =>
    simp only [execStep] at h
    split_ifs at h with h1
    injection h with h
    subst h
    exact ⟨rfl, rfl, fun i hi => hi, rfl, Or.inl rfl⟩
  | start i =>
    simp only [execStep] at h
    split_ifs at h with h1
    injection h with h
    subst h
    refine ⟨hc, rfl, ?_, rfl, Or.inl rfl⟩
    intro j hj
    by_cases hij : i = j
    · subst hij
      rw [h1.2] at hj
      cases hj
    · simpa [List.getElem?_set_ne hij] using hj
  | callProvider i =>
    simp only [execStep] at h
    split_ifs at h with h1
    rw [hc] at h1
    exact absurd h1.2.2 (by simp)
  | finishTask i =>
    simp only [execStep] at h
    split_ifs at h with h1
    injection h with h
    subst h
    refine ⟨hc, rfl, ?_, rfl, Or.inl rfl⟩
    intro j hj
    by_cases hij : i = j
    · subst hij
      rcases h1.2 with h2 | h2 <;> rw [h2] at hj <;> cases hj
    · simpa [List.getElem?_set_ne hij] using hj
  | observe =>
    simp only [execStep] at h
    split_ifs at h with h1
    injection h with h
    subst h
    refine ⟨hc, rfl, ?_, rfl, Or.inl rfl⟩
    intro j hj
    have hmap : (s.tasks.map
        (fun t => if t = TaskStatus.notStarted then TaskStatus.futCancelled else t))[j]?
        = some TaskStatus.futCancelled := by
      rw [List.getElem?_map, hj]
      rfl
    simpa using hmap
  | finalize =>
    simp only [execStep] at h
    split_ifs at h with h1
    injection h with h
    subst h
    exact ⟨hc, rfl, fun i hi => hi, rfl, Or.inr rfl⟩

/-! ### C2 -/

/-- Counterexample for claim C2: in the executor model a pending future may
still be started by a worker thread after the cancel signal is set (the
signal gates only `infer_one`'s provider call and the collection loop's
`fut.cancel`), so "no not-yet-started task begins executing once the signal
is set" fails on the trace `setCancel; start 0`. -/
theorem claim_C2_counterexample :
    (initExec 1).cancelFlag = false
    ∧ (initExec 1).tasks[0]? = some TaskStatus.notStarted
    ∧ execRun (initExec 1) [ExecEv.setCancel, ExecEv.start 0]
        = some { tasks := [TaskStatus.running], cancelFlag := true, observed := false,
                 providerCalls := 0, finalStatus := none, evalRan := false } := by
  refine ⟨rfl, rfl, by decide⟩

/-- Claim C2 (amended): from any state in which the cancel signal is set, no
provider call is ever made, futures already cancelled by the collection
loop never begin executing, the evaluation never runs, and the run can only
finalize as `aborted` (never `completed`, never `failed`). -/
theorem claim_C2 (evs : List ExecEv) :
    ∀ s0 s1 : ExecState, execRun s0 evs = some s1 → s0.cancelFlag = true →
      s1.cancelFlag = true
      ∧ s1.providerCalls = s0.providerCalls
      ∧ (∀ i : ℕ, s0.tasks[i]? = some TaskStatus.futCancelled → s1.tasks[i]? = some TaskStatus.futCancelled)
      ∧ s1.evalRan = s0.evalRan
      ∧ (s1.finalStatus = s0.finalStatus ∨ s1.finalStatus = some .aborted)
      ∧ (s0.finalStatus = none →
          s1.finalStatus ≠ some .completed ∧ s1.finalStatus ≠ some .failed) := by
  induction evs with
  | nil =>
    intro s0 s1 hrun hc
    simp only [execRun] at hrun
    injection hrun with hrun
    subst hrun
    refine ⟨hc, rfl, fun i hi => hi, rfl, Or.inl rfl, ?_⟩
    intro h0
    rw [h0]
    exact ⟨by simp, by simp⟩
  | cons e evs ih =>
    intro s0 s1 hrun hc
    simp only [execRun] at hrun
    rcases hstep : execStep s0 e with _ | s'
    · rw [hstep] at hrun; cases hrun
    · rw [hstep] at hrun
      obtain ⟨hc1, hp1, hf1, he1, hs1⟩ := execStep_cancel_inv hstep hc
      obtain ⟨hc2, hp2, hf2, he2, hs2, _⟩ := ih s' s1 hrun hc1
      refine ⟨hc2, hp2.trans hp1, fun i hi => hf2 i (hf1 i hi), he2.trans he1, ?_, ?_⟩
      · rcases hs2 with h2 | h2
        · rcases hs1 with h1 | h1
          · exact Or.inl (h2.trans h1)
          · exact Or.inr (h2.trans h1)
        · exact Or.inr h2
      · intro h0
        have hfin : s1.finalStatus = none ∨ s1.finalStatus = some .aborted := by
          rcases hs2 with h2 | h2
          · rcases hs1 with h1 | h1
            · exact Or.inl (by rw [h2, h1, h0])
            · exact Or.inr (by rw [h2, h1])
          · exact Or.inr h2
        rcases hfin with hf | hf <;> rw [hf] <;> exact ⟨by simp, by simp⟩

/-- Witness for claim C2: finalizing after cancellation-and-observation
yields `aborted` with the evaluation skipped and the cancelled future still
unstarted. -/
theorem claim_C2_witness :
    ∃ s1 : ExecState,
      execRun { tasks := [TaskStatus.futCancelled], cancelFlag := true, observed := true,
                providerCalls := 0, finalStatus := none, evalRan := false }
        [ExecEv.finalize] = some s1
      ∧ s1.cancelFlag = true
      ∧ s1.providerCalls = 0
      ∧ s1.tasks[0]? = some TaskStatus.futCancelled
      ∧ s1.evalRan = false
      ∧ s1.finalStatus ≠ some RunStatus.completed
      ∧ s1.finalStatus ≠ some RunStatus.failed := by
  have hrun : execRun
      { tasks := [TaskStatus.futCancelled], cancelFlag := true, observed := true,
        providerCalls := 0, finalStatus := none, evalRan := false }
      [ExecEv.finalize]
      = some { tasks := [TaskStatus.futCancelled], cancelFlag := true, observed := true,
               providerCalls := 0, finalStatus := some RunStatus.aborted, evalRan := false } := by
    decide
  obtain ⟨hc, hp, hf, he, _, hns⟩ := claim_C2 [ExecEv.finalize] _ _ hrun rfl
  refine ⟨_, hrun, hc, hp, hf 0 rfl, he, (hns rfl).1, (hns rfl).2⟩

end SpectraGram
